import Mathlib

set_option autoImplicit false

/-!
Shallow embedding of the epicservice_v2 warehouse core:
the allocation engine (handlers/user/add_handlers.py), the subtraction
engine (handlers/admin/subtract_handlers.py), the import reconciliation
planner (handlers/admin/import_handlers.py), the import normalizer
(utils/import_normalizer.py) and the two-tier card cache
(utils/card_cache.py), over the data model of database/orm/products.py.

Python float quantities are modelled as exact rationals; SQLAlchemy
sessions are modelled by explicit state passing, where the transactional
part of the state is only kept on commit and discarded on failure
(database/session.py closes the session without committing on error).
-/

namespace EpicService

/-- Row of the `products` table (database/orm/products.py, class `Product`).
The audit columns `created_at` / `updated_at` and the surrogate `id` are
omitted; rows are identified by the unique key `(dept_id, article)`. -/
structure Product where
  dept_id : String
  article : String
  name : String
  qty : Rat
  price : Rat
  months_no_move : Rat
  active : Bool
deriving DecidableEq, Repr

/-- Row of `picklist_items` (class `PicklistItem`). -/
structure PicklistItem where
  user_id : String
  dept_id : String
  article : String
  qty_alloc : Rat
  price_at_moment : Option Rat
deriving DecidableEq, Repr

/-- Row of `picklist_overflow_items` (class `PicklistOverflowItem`). -/
structure PicklistOverflowItem where
  user_id : String
  dept_id : String
  article : String
  qty_overflow : Rat
  price_at_moment : Option Rat
deriving DecidableEq, Repr

/-- Row of `product_card_cache` (class `ProductCardCache`): the durable L2
cache tier. The JSON payload is abstracted to a string. -/
structure ProductCardCache where
  dept_id : String
  article : String
  card_json : String
  file_id : Option String
deriving DecidableEq, Repr

/-- Entry of the in-process L1 cache (utils/card_cache.py, `_L1Entry`). -/
structure L1Entry where
  value : String
  file_id : Option String
  ts : Rat
deriving DecidableEq, Repr

/-- The transactional state: the tables the SQLAlchemy session writes.
On failure before commit these writes are discarded. -/
structure DbState where
  products : List Product
  picklist_items : List PicklistItem
  picklist_overflow_items : List PicklistOverflowItem
  product_card_cache : List ProductCardCache
deriving DecidableEq, Repr

/-- Full state seen by a handler: the database plus the process-local L1
dictionary (`card_cache._L1._data`), which is ordinary in-memory state and
is NOT part of the session's transaction. -/
structure SysState where
  db : DbState
  l1 : List ((String × String) × L1Entry)
deriving DecidableEq, Repr

def prodKey (p : Product) : String × String := (p.dept_id, p.article)

/-- The `uq_products_dept_article` unique constraint of the `products`
table: no two rows share a `(dept_id, article)` key. -/
def WellKeyed (rows : List Product) : Prop := (rows.map prodKey).Nodup

instance (rows : List Product) : Decidable (WellKeyed rows) := by
  unfold WellKeyed; infer_instance

/-- The `ck_products_qty_nonneg` check constraint of the `products` table. -/
def allQtyNonneg (rows : List Product) : Prop := ∀ p ∈ rows, 0 ≤ p.qty

/-- `session.query(Product).filter(dept_id == d, article == a).one_or_none()`.
Modelled as first match; the source's `one_or_none` raises when the unique
constraint `uq_products_dept_article` is violated, so theorems carry a
`WellKeyed` hypothesis where the distinction could matter. -/
def findProduct (rows : List Product) (dept_id article : String) : Option Product :=
  rows.find? fun p => p.dept_id == dept_id && p.article == article

/-- Update every row with the given key (exactly one under `WellKeyed`). -/
def mapWhere (rows : List Product) (dept_id article : String) (f : Product → Product) :
    List Product :=
  rows.map fun p => if p.dept_id == dept_id && p.article == article then f p else p

/-- `prod.qty = v` on the row locked and loaded for `(dept_id, article)`. -/
def setProductQty (rows : List Product) (dept_id article : String) (v : Rat) : List Product :=
  mapWhere rows dept_id article fun p => { p with qty := v }

/-! ## Card cache (utils/card_cache.py) -/

/-- `_LRUCache.invalidate`: `self._data.pop(key, None)` — an immediate,
non-transactional removal from the process-local dictionary. -/
def l1_invalidate (l1 : List ((String × String) × L1Entry)) (k : String × String) :
    List ((String × String) × L1Entry) :=
  l1.filter fun e => !(e.1 == k)

/-- Session-scoped `DELETE` of the L2 rows for a key
(`session.query(ProductCardCache).filter(...).delete(...)`). -/
def l2_delete (rows : List ProductCardCache) (dept_id article : String) :
    List ProductCardCache :=
  rows.filter fun r => !(r.dept_id == dept_id && r.article == article)

/-- `card_cache.invalidate(session, dept_id, article)`: pops the L1 entry
immediately and, when `CARD_L2_ENABLED`, issues a session-scoped delete
against the L2 table. Returns (new L2 table contents as pending in the
session, new L1 dictionary). -/
def invalidate (l2_enabled : Bool) (cc : List ProductCardCache)
    (l1 : List ((String × String) × L1Entry)) (dept_id article : String) :
    List ProductCardCache × List ((String × String) × L1Entry) :=
  let k := (dept_id, article)
  let l1' := l1_invalidate l1 k
  let cc' := if l2_enabled then l2_delete cc dept_id article else cc
  (cc', l1')

/-! ## Allocation engine (handlers/user/add_handlers.py, `_apply_add`) -/

/-- Upsert of the `PicklistItem` row: create with a `0.0` baseline if
absent, then `pi.qty_alloc = float(pi.qty_alloc or 0.0) + alloc`. -/
def upsertPicklistItem (rows : List PicklistItem) (user_id dept_id article : String)
    (alloc : Rat) : List PicklistItem :=
  let sameKey := fun (pi : PicklistItem) =>
    pi.user_id == user_id && pi.dept_id == dept_id && pi.article == article
  match rows.find? sameKey with
  | some _ => rows.map fun pi =>
      if sameKey pi then { pi with qty_alloc := pi.qty_alloc + alloc } else pi
  | none => rows ++ [{ user_id := user_id, dept_id := dept_id, article := article,
                       qty_alloc := 0 + alloc, price_at_moment := none }]

/-- Upsert of the `PicklistOverflowItem` row, same shape. -/
def upsertOverflowItem (rows : List PicklistOverflowItem) (user_id dept_id article : String)
    (overflow : Rat) : List PicklistOverflowItem :=
  let sameKey := fun (po : PicklistOverflowItem) =>
    po.user_id == user_id && po.dept_id == dept_id && po.article == article
  match rows.find? sameKey with
  | some _ => rows.map fun po =>
      if sameKey po then { po with qty_overflow := po.qty_overflow + overflow } else po
  | none => rows ++ [{ user_id := user_id, dept_id := dept_id, article := article,
                       qty_overflow := 0 + overflow, price_at_moment := none }]

/-- The session work of `_apply_add` together with the eager L1 pop: the
database part is pending until commit, the `l1` part has already happened.
When the product is absent the source commits and returns
`(0.0, req_qty)` early, touching nothing. -/
structure ApplyAddEffects where
  db : DbState
  l1 : List ((String × String) × L1Entry)
  alloc : Rat
  overflow : Rat
deriving DecidableEq, Repr

def apply_add_effects (l2_enabled : Bool) (st : SysState)
    (user_id dept_id article : String) (req_qty : Rat) : ApplyAddEffects :=
  match findProduct st.db.products dept_id article with
  | none => ⟨st.db, st.l1, 0, req_qty⟩
  | some prod =>
    let available := prod.qty
    let req := max 0 req_qty
    let alloc := min available req
    let overflow := max (req - alloc) 0
    let products := setProductQty st.db.products dept_id article (available - alloc)
    let picklist := upsertPicklistItem st.db.picklist_items user_id dept_id article alloc
    let over_rows :=
      if 0 < overflow then
        upsertOverflowItem st.db.picklist_overflow_items user_id dept_id article overflow
      else st.db.picklist_overflow_items
    let inv := invalidate l2_enabled st.db.product_card_cache st.l1 dept_id article
    ⟨⟨products, picklist, over_rows, inv.1⟩, inv.2, alloc, overflow⟩

/-- `_apply_add` with a successful commit: all pending writes land. -/
def apply_add (l2_enabled : Bool) (st : SysState) (user_id dept_id article : String)
    (req_qty : Rat) : SysState × Rat × Rat :=
  let e := apply_add_effects l2_enabled st user_id dept_id article req_qty
  (⟨e.db, e.l1⟩, e.alloc, e.overflow)

/-- `_apply_add` when the transaction fails between the session writes and
the commit: `get_session` closes the session without committing, so the
database writes are discarded — but the in-process L1 pop performed by
`invalidate` is not undone. -/
def apply_add_commit_failed (l2_enabled : Bool) (st : SysState)
    (user_id dept_id article : String) (req_qty : Rat) : SysState :=
  let e := apply_add_effects l2_enabled st user_id dept_id article req_qty
  ⟨st.db, e.l1⟩

/-! ## Helper lemmas about lookups and keyed updates -/

theorem findProduct_mem {rows : List Product} {d a : String} {p : Product}
    (h : findProduct rows d a = some p) :
    p ∈ rows ∧ p.dept_id = d ∧ p.article = a := by
  have hm := List.mem_of_find?_eq_some h
  have hp := List.find?_some h
  simp only [Bool.and_eq_true, beq_iff_eq] at hp
  exact ⟨hm, hp.1, hp.2⟩

theorem findProduct_cons_pos {q : Product} {rest : List Product} {d a : String}
    (hq : (q.dept_id == d && q.article == a) = true) :
    findProduct (q :: rest) d a = some q := by
  simp [findProduct, List.find?, hq]

theorem findProduct_cons_neg {q : Product} {rest : List Product} {d a : String}
    (hq : (q.dept_id == d && q.article == a) = false) :
    findProduct (q :: rest) d a = findProduct rest d a := by
  simp [findProduct, List.find?, hq]

theorem findProduct_mapWhere_same {rows : List Product} {d a : String} {p : Product}
    (f : Product → Product) (hf : ∀ q, (f q).dept_id = q.dept_id ∧ (f q).article = q.article)
    (h : findProduct rows d a = some p) :
    findProduct (mapWhere rows d a f) d a = some (f p) := by
  induction rows with
  | nil => simp [findProduct] at h
  | cons q rest ih =>
    by_cases hq : (q.dept_id == d && q.article == a) = true
    · rw [findProduct_cons_pos hq] at h
      cases h
      rw [mapWhere, List.map_cons, if_pos hq, findProduct_cons_pos]
      simp only [Bool.and_eq_true, beq_iff_eq] at hq ⊢
      exact ⟨(hf p).1.trans hq.1, (hf p).2.trans hq.2⟩
    · rw [findProduct_cons_neg (Bool.not_eq_true _ ▸ hq)] at h
      rw [mapWhere, List.map_cons, if_neg hq,
        findProduct_cons_neg (Bool.not_eq_true _ ▸ hq)]
      exact ih h

theorem findProduct_mapWhere_ne {rows : List Product} {d a d' a' : String}
    (f : Product → Product) (hf : ∀ q, (f q).dept_id = q.dept_id ∧ (f q).article = q.article)
    (hne : ¬(d = d' ∧ a = a')) :
    findProduct (mapWhere rows d' a' f) d a = findProduct rows d a := by
  induction rows with
  | nil => rfl
  | cons q rest ih =>
    rw [mapWhere, List.map_cons]
    by_cases hq : (q.dept_id == d' && q.article == a') = true
    · rw [if_pos hq]
      simp only [Bool.and_eq_true, beq_iff_eq] at hq
      have hno : ((f q).dept_id == d && (f q).article == a) = false := by
        simp only [Bool.and_eq_false_iff, beq_eq_false_iff_ne, ne_eq, (hf q).1, (hf q).2,
          hq.1, hq.2]
        by_contra hcon
        push_neg at hcon
        exact hne ⟨hcon.1.symm, hcon.2.symm⟩
      have hno' : (q.dept_id == d && q.article == a) = false := by
        simp only [Bool.and_eq_false_iff, beq_eq_false_iff_ne, ne_eq, hq.1, hq.2]
        by_contra hcon
        push_neg at hcon
        exact hne ⟨hcon.1.symm, hcon.2.symm⟩
      rw [findProduct_cons_neg hno, findProduct_cons_neg hno']
      exact ih
    · rw [if_neg hq]
      by_cases hqa : (q.dept_id == d && q.article == a) = true
      · rw [findProduct_cons_pos hqa, findProduct_cons_pos hqa]
      · rw [findProduct_cons_neg (Bool.not_eq_true _ ▸ hqa),
          findProduct_cons_neg (Bool.not_eq_true _ ▸ hqa)]
        exact ih

theorem findProduct_setQty_same {rows : List Product} {d a : String} {p : Product} (v : Rat)
    (h : findProduct rows d a = some p) :
    findProduct (setProductQty rows d a v) d a = some { p with qty := v } :=
  findProduct_mapWhere_same (fun q => { q with qty := v }) (fun q => ⟨rfl, rfl⟩) h

theorem findProduct_setQty_ne {rows : List Product} {d a d' a' : String} (v : Rat)
    (hne : ¬(d = d' ∧ a = a')) :
    findProduct (setProductQty rows d' a' v) d a = findProduct rows d a :=
  findProduct_mapWhere_ne (fun q => { q with qty := v }) (fun q => ⟨rfl, rfl⟩) hne

theorem mem_mapWhere {rows : List Product} {d a : String} {f : Product → Product} {q : Product}
    (h : q ∈ mapWhere rows d a f) : ∃ p ∈ rows, q = p ∨ q = f p := by
  rw [mapWhere, List.mem_map] at h
  obtain ⟨p, hp, hq⟩ := h
  refine ⟨p, hp, ?_⟩
  by_cases hc : (p.dept_id == d && p.article == a) = true
  · rw [if_pos hc] at hq; exact Or.inr hq.symm
  · rw [if_neg hc] at hq; exact Or.inl hq.symm

/-! ## Concrete states used as witnesses -/

def stEmpty : SysState := ⟨⟨[], [], [], []⟩, []⟩

def prodA : Product :=
  { dept_id := "100", article := "12345678", name := "item", qty := 10, price := 3,
    months_no_move := 0, active := true }

def stOne : SysState := ⟨⟨[prodA], [], [], []⟩, []⟩

def cardRowA : ProductCardCache :=
  { dept_id := "100", article := "12345678", card_json := "card", file_id := none }

def l1EntryA : (String × String) × L1Entry :=
  (("100", "12345678"), { value := "card", file_id := none, ts := 0 })

def stCached : SysState := ⟨⟨[prodA], [], [], [cardRowA]⟩, [l1EntryA]⟩

/-! ## Claim C1 -/

/-- C1: for every `_apply_add` call with `requestedQty > 0` on a
`(dept_id, article)` key present in the ledger, the call returns
`(alloc, overflow)` with `alloc = min(available, requestedQty)`,
`overflow = requestedQty - alloc` (hence `alloc + overflow = requestedQty`),
and the ledger quantity for that key decreases by exactly `alloc`. -/
theorem C1_allocate_min_split (l2e : Bool) (st : SysState) (u d a : String)
    (req_qty : Rat) (p : Product)
    (hwk : WellKeyed st.db.products)
    (hreq : 0 < req_qty)
    (hfind : findProduct st.db.products d a = some p) :
    (apply_add l2e st u d a req_qty).2.1 = min p.qty req_qty ∧
    (apply_add l2e st u d a req_qty).2.2 = req_qty - min p.qty req_qty ∧
    (apply_add l2e st u d a req_qty).2.1 + (apply_add l2e st u d a req_qty).2.2 = req_qty ∧
    findProduct (apply_add l2e st u d a req_qty).1.db.products d a
      = some { p with qty := p.qty - min p.qty req_qty } := by
  have hmax : max 0 req_qty = req_qty := max_eq_right hreq.le
  have hover : max (req_qty - min p.qty req_qty) 0 = req_qty - min p.qty req_qty :=
    max_eq_left (sub_nonneg.2 (min_le_right _ _))
  simp only [apply_add, apply_add_effects, hfind, hmax, hover]
  refine ⟨trivial, trivial, by ring, ?_⟩
  exact findProduct_mapWhere_same _ (fun q => ⟨rfl, rfl⟩) hfind

/-- Witness for C1 at a concrete input (scenario A of the spec: available
10, requested 15). -/
theorem C1_allocate_min_split_witness :
    WellKeyed stOne.db.products ∧ 0 < (15 : Rat) ∧
    findProduct stOne.db.products "100" "12345678" = some prodA ∧
    ((apply_add true stOne "7" "100" "12345678" 15).2.1 = min prodA.qty 15 ∧
     (apply_add true stOne "7" "100" "12345678" 15).2.2 = 15 - min prodA.qty 15 ∧
     (apply_add true stOne "7" "100" "12345678" 15).2.1 +
       (apply_add true stOne "7" "100" "12345678" 15).2.2 = 15 ∧
     findProduct (apply_add true stOne "7" "100" "12345678" 15).1.db.products "100" "12345678"
       = some { prodA with qty := prodA.qty - min prodA.qty 15 }) :=
  ⟨by decide, by norm_num, rfl,
    C1_allocate_min_split true stOne "7" "100" "12345678" 15 prodA (by decide)
      (by norm_num) rfl⟩

/-! ## Claim C3 -/

/-- C3 counterexample: on a key absent from the ledger with
`requestedQty = 5 > 0`, `_apply_add` returns `(alloc = 0, overflow = 5)`
but, contrary to the claim, no Overflow row is created for the user: the
source returns early (`return 0.0, req_qty`) before the upsert code. -/
theorem C3_counterexample :
    0 < (5 : Rat) ∧
    findProduct stEmpty.db.products "100" "12345678" = none ∧
    (apply_add true stEmpty "1" "100" "12345678" 5).2.1 = 0 ∧
    (apply_add true stEmpty "1" "100" "12345678" 5).2.2 = 5 ∧
    (apply_add true stEmpty "1" "100" "12345678" 5).1.db.picklist_overflow_items = [] := by
  refine ⟨by norm_num, rfl, rfl, rfl, rfl⟩

/-- C3 amended: for every `_apply_add` call with `requestedQty > 0` on a key
absent from the ledger, the call succeeds returning
`(alloc = 0, overflow = requestedQty)` — but nothing is written at all: no
Overflow (or Allocation) row is created or incremented, and the ledger and
both cache tiers are untouched, so the user gets no picklist entry. -/
theorem C3_absent_key_returns_all_overflow (l2e : Bool) (st : SysState)
    (u d a : String) (req_qty : Rat)
    (hreq : 0 < req_qty)
    (habs : findProduct st.db.products d a = none) :
    apply_add l2e st u d a req_qty = (st, 0, req_qty) := by
  simp only [apply_add, apply_add_effects, habs]

/-- Witness for the amended C3 at a concrete input. -/
theorem C3_absent_key_returns_all_overflow_witness :
    0 < (5 : Rat) ∧
    findProduct stEmpty.db.products "100" "12345678" = none ∧
    apply_add true stEmpty "1" "100" "12345678" 5 = (stEmpty, 0, 5) :=
  ⟨by norm_num, rfl,
    C3_absent_key_returns_all_overflow true stEmpty "1" "100" "12345678" 5 (by norm_num) rfl⟩

/-! ## Claim C6 -/

/-- C6 divergence at the failing input: `_apply_add` on a present key with a
cached card in both tiers, where the transaction fails at commit. The
database — including the pending L2 cache delete — is rolled back
(`db = stCached.db`), but the eager `self._data.pop` on the L1 dictionary
performed by `card_cache.invalidate` is not undone: the L1 entry is gone,
so the cache state for the key is NOT unchanged from before the call. -/
theorem C6_l1_invalidation_not_rolled_back :
    (apply_add_commit_failed true stCached "1" "100" "12345678" 5).db = stCached.db ∧
    (apply_add_commit_failed true stCached "1" "100" "12345678" 5).l1 = [] ∧
    stCached.l1 = [l1EntryA] := by
  refine ⟨rfl, by decide, rfl⟩

/-! ## Subtraction engine (handlers/admin/subtract_handlers.py) -/

/-- A parsed line of the subtract payload (`SubtractItem`), with the
department already resolved (the handler aborts before the loop when a
department is missing and no default is configured). -/
structure SubtractItem where
  article : String
  qty : Rat
  dept_id : String
deriving DecidableEq, Repr

/-- A success line of the report: `before − requested → after` for a key. -/
structure SubtractLine where
  dept_id : String
  article : String
  before : Rat
  requested : Rat
  after : Rat
deriving DecidableEq, Repr

/-- An error line of the report (`item not found`). -/
structure SubtractError where
  dept_id : String
  article : String
deriving DecidableEq, Repr

/-- `_subtract_one(session, dept_id, article, qty)`: lock the row, load it
with `one_or_none`, raise `ValueError` when absent; otherwise clamp
`before - qty` at zero, write it back, and delete the L2 card-cache row via
`_invalidate_card_cache` — which, unlike `card_cache.invalidate`, never
touches the in-process L1 dictionary. Returns `(before, after)`. -/
def subtract_one (db : DbState) (dept_id article : String) (qty : Rat) :
    Except Unit (DbState × Rat × Rat) :=
  match findProduct db.products dept_id article with
  | none => .error ()
  | some prod =>
    let before := prod.qty
    let new_qty0 := before - qty
    let new_qty := if new_qty0 < 0 then 0 else new_qty0
    let products := setProductQty db.products dept_id article new_qty
    let cc := l2_delete db.product_card_cache dept_id article
    .ok (⟨products, db.picklist_items, db.picklist_overflow_items, cc⟩, before, new_qty)

/-- The aggregation step of `handle_subtract_payload`: duplicate
`(dept, article)` keys of the payload are merged into one quantity per key,
in first-seen order (Python dict insertion semantics). -/
def agg_add (m : List ((String × String) × Rat)) (k : String × String) (q : Rat) :
    List ((String × String) × Rat) :=
  if m.any (·.1 == k) then m.map fun kv => if kv.1 == k then (kv.1, kv.2 + q) else kv
  else m ++ [(k, q)]

def aggregate_items (items : List SubtractItem) : List ((String × String) × Rat) :=
  items.foldl (fun m it => agg_add m (it.dept_id, it.article) it.qty) []

/-- The per-key loop of `handle_subtract_payload`: each aggregated key is
either subtracted (appending a `(before, requested, after)` result line) or
recorded as an `item not found` error line, and processing continues with
the next key. -/
def subtract_loop (db : DbState) :
    List ((String × String) × Rat) → DbState × List SubtractLine × List SubtractError
  | [] => (db, [], [])
  | (k, q) :: rest =>
    match subtract_one db k.1 k.2 q with
    | .ok (db', before, after) =>
      let r := subtract_loop db' rest
      (r.1, ⟨k.1, k.2, before, q, after⟩ :: r.2.1, r.2.2)
    | .error _ =>
      let r := subtract_loop db rest
      (r.1, r.2.1, ⟨k.1, k.2⟩ :: r.2.2)

/-- `handle_subtract_payload` after parsing: aggregate the items, run the
loop in one shared session, commit once. The in-process L1 dictionary is
never touched by the subtraction path. -/
def handle_subtract_payload (st : SysState) (items : List SubtractItem) :
    SysState × List SubtractLine × List SubtractError :=
  let agg := aggregate_items items
  let r := subtract_loop st.db agg
  (⟨r.1, st.l1⟩, r.2.1, r.2.2)

/-! ### Lemmas about the subtraction loop -/

theorem subtract_one_ok {db : DbState} {d a : String} {q : Rat} {p : Product}
    (h : findProduct db.products d a = some p) :
    subtract_one db d a q =
      .ok (⟨setProductQty db.products d a (if p.qty - q < 0 then 0 else p.qty - q),
            db.picklist_items, db.picklist_overflow_items,
            l2_delete db.product_card_cache d a⟩,
        p.qty, if p.qty - q < 0 then 0 else p.qty - q) := by
  simp only [subtract_one, h]

theorem subtract_one_err {db : DbState} {d a : String} {q : Rat}
    (h : findProduct db.products d a = none) :
    subtract_one db d a q = .error () := by
  simp only [subtract_one, h]

/-- Keys of the aggregated payload are distinct. -/
theorem agg_add_mem_keys {m : List ((String × String) × Rat)} {k : String × String} {q : Rat} :
    (agg_add m k q).map Prod.fst = m.map Prod.fst ∨
    ((agg_add m k q).map Prod.fst = m.map Prod.fst ++ [k] ∧ k ∉ m.map Prod.fst) := by
  unfold agg_add
  by_cases hc : (m.any (·.1 == k)) = true
  · left
    rw [if_pos hc, List.map_map]
    refine List.map_congr_left ?_
    intro kv _
    by_cases hk : kv.1 = k
    · simp [hk]
    · simp [hk]
  · right
    rw [if_neg hc]
    constructor
    · simp
    · intro hmem
      rw [List.any_eq_true] at hc
      apply hc
      rw [List.mem_map] at hmem
      obtain ⟨kv, hkv, hfst⟩ := hmem
      exact ⟨kv, hkv, by simp [hfst]⟩

theorem aggregate_foldl_nodup (items : List SubtractItem)
    (m : List ((String × String) × Rat)) (hm : (m.map Prod.fst).Nodup) :
    ((items.foldl (fun m it => agg_add m (it.dept_id, it.article) it.qty) m).map
      Prod.fst).Nodup := by
  induction items generalizing m with
  | nil => exact hm
  | cons it rest ih =>
    rw [List.foldl_cons]
    apply ih
    rcases agg_add_mem_keys
      (m := m) (k := (it.dept_id, it.article)) (q := it.qty) with h | ⟨h, hnotin⟩
    · rw [h]; exact hm
    · rw [h, List.nodup_append]
      exact ⟨hm, List.nodup_singleton _,
        fun x hx hxk => hnotin ((List.mem_singleton.mp hxk) ▸ hx)⟩

theorem aggregate_items_nodup (items : List SubtractItem) :
    ((aggregate_items items).map Prod.fst).Nodup :=
  aggregate_foldl_nodup items [] (by simp)

theorem clamp_eq_max (x : Rat) : (if x < 0 then 0 else x) = max 0 x := by
  rcases lt_or_le x 0 with h | h
  · rw [if_pos h, max_eq_left h.le]
  · rw [if_neg (not_lt.2 h), max_eq_right h]

theorem subtract_loop_length (db : DbState) (agg : List ((String × String) × Rat)) :
    (subtract_loop db agg).2.1.length + (subtract_loop db agg).2.2.length = agg.length := by
  induction agg generalizing db with
  | nil => simp [subtract_loop]
  | cons hd rest ih =>
    obtain ⟨k, q⟩ := hd
    cases hcase : subtract_one db k.1 k.2 q with
    | ok v =>
      obtain ⟨db', before, after⟩ := v
      have := ih db'
      simp only [subtract_loop, hcase, List.length_cons]
      omega
    | error e =>
      have := ih db
      simp only [subtract_loop, hcase, List.length_cons]
      omega

theorem subtract_loop_find_not_mem {agg : List ((String × String) × Rat)} {db : DbState}
    {k : String × String} (hnot : k ∉ agg.map Prod.fst) :
    findProduct (subtract_loop db agg).1.products k.1 k.2
      = findProduct db.products k.1 k.2 := by
  induction agg generalizing db with
  | nil => rfl
  | cons hd rest ih =>
    obtain ⟨k', q'⟩ := hd
    have hk : k ≠ k' := by
      intro h
      exact hnot (by simp [h])
    have hrest : k ∉ rest.map Prod.fst := fun h => hnot (by simp [h])
    cases hfind : findProduct db.products k'.1 k'.2 with
    | none =>
      simp only [subtract_loop, subtract_one_err hfind]
      exact ih hrest
    | some p =>
      simp only [subtract_loop, subtract_one_ok hfind]
      rw [ih hrest]
      exact findProduct_mapWhere_ne _ (fun q => ⟨rfl, rfl⟩)
        (fun hc => hk (Prod.ext hc.1 hc.2))

theorem subtract_loop_nonneg {agg : List ((String × String) × Rat)} {db : DbState}
    (h : allQtyNonneg db.products) :
    allQtyNonneg (subtract_loop db agg).1.products := by
  induction agg generalizing db with
  | nil => exact h
  | cons hd rest ih =>
    obtain ⟨k, q⟩ := hd
    cases hfind : findProduct db.products k.1 k.2 with
    | none =>
      simp only [subtract_loop, subtract_one_err hfind]
      exact ih h
    | some p =>
      simp only [subtract_loop, subtract_one_ok hfind]
      apply ih
      intro r hr
      obtain ⟨s, hs, hrs⟩ := mem_mapWhere hr
      rcases hrs with rfl | rfl
      · exact h _ hs
      · by_cases hneg : p.qty - q < 0
        · simp [hneg]
        · simpa [hneg] using not_lt.1 hneg

/-- No L2 cache row for a given key. -/
def noCard (cc : List ProductCardCache) (d a : String) : Prop :=
  ∀ c ∈ cc, ¬(c.dept_id = d ∧ c.article = a)

theorem noCard_l2_delete (cc : List ProductCardCache) (d a : String) :
    noCard (l2_delete cc d a) d a := by
  intro c hc hkey
  rw [l2_delete, List.mem_filter] at hc
  have := hc.2
  simp [hkey.1, hkey.2] at this

theorem noCard_filter {cc : List ProductCardCache} {d a : String}
    (p : ProductCardCache → Bool) (h : noCard cc d a) :
    noCard (cc.filter p) d a :=
  fun c hc => h c (List.mem_filter.1 hc).1

theorem subtract_loop_noCard {agg : List ((String × String) × Rat)} {db : DbState}
    {d a : String} (h : noCard db.product_card_cache d a) :
    noCard (subtract_loop db agg).1.product_card_cache d a := by
  induction agg generalizing db with
  | nil => exact h
  | cons hd rest ih =>
    obtain ⟨k, q⟩ := hd
    cases hfind : findProduct db.products k.1 k.2 with
    | none =>
      simp only [subtract_loop, subtract_one_err hfind]
      exact ih h
    | some p =>
      simp only [subtract_loop, subtract_one_ok hfind]
      exact ih (noCard_filter _ h)

theorem subtract_loop_key_ok {agg : List ((String × String) × Rat)} {db : DbState}
    {k : String × String} {q : Rat} {p : Product}
    (hnd : (agg.map Prod.fst).Nodup)
    (hmem : (k, q) ∈ agg)
    (hfind : findProduct db.products k.1 k.2 = some p) :
    findProduct (subtract_loop db agg).1.products k.1 k.2
      = some { p with qty := if p.qty - q < 0 then 0 else p.qty - q } ∧
    (⟨k.1, k.2, p.qty, q, if p.qty - q < 0 then 0 else p.qty - q⟩ : SubtractLine)
      ∈ (subtract_loop db agg).2.1 := by
  induction agg generalizing db with
  | nil => cases hmem
  | cons hd rest ih =>
    obtain ⟨k', q'⟩ := hd
    have hnd2 : k' ∉ rest.map Prod.fst ∧ (rest.map Prod.fst).Nodup := by
      rw [List.map_cons, List.nodup_cons] at hnd
      exact hnd
    rcases List.mem_cons.1 hmem with heq | hrest
    · have hk : k = k' := congrArg Prod.fst heq
      have hq : q = q' := congrArg Prod.snd heq
      subst hk
      subst hq
      simp only [subtract_loop, subtract_one_ok hfind]
      constructor
      · rw [subtract_loop_find_not_mem hnd2.1]
        show findProduct (setProductQty db.products k.1 k.2 _) k.1 k.2 = _
        exact findProduct_setQty_same _ hfind
      · exact List.mem_cons_self _ _
    · have hk : k ≠ k' := by
        intro h
        subst h
        exact hnd2.1 (List.mem_map.2 ⟨(k, q), hrest, rfl⟩)
      cases hfind' : findProduct db.products k'.1 k'.2 with
      | none =>
        simp only [subtract_loop, subtract_one_err hfind']
        exact ih hnd2.2 hrest hfind
      | some p' =>
        simp only [subtract_loop, subtract_one_ok hfind']
        have hfind2 : findProduct
            ((⟨setProductQty db.products k'.1 k'.2
                (if p'.qty - q' < 0 then 0 else p'.qty - q'),
              db.picklist_items, db.picklist_overflow_items,
              l2_delete db.product_card_cache k'.1 k'.2⟩ : DbState)).products
            k.1 k.2 = some p := by
          show findProduct (setProductQty db.products k'.1 k'.2 _) k.1 k.2 = some p
          rw [findProduct_setQty_ne _ (fun hc => hk (Prod.ext hc.1 hc.2))]
          exact hfind
        have := ih hnd2.2 hrest hfind2
        exact ⟨this.1, List.mem_cons_of_mem _ this.2⟩

theorem subtract_loop_key_err {agg : List ((String × String) × Rat)} {db : DbState}
    {k : String × String} {q : Rat}
    (hmem : (k, q) ∈ agg)
    (hfind : findProduct db.products k.1 k.2 = none) :
    (⟨k.1, k.2⟩ : SubtractError) ∈ (subtract_loop db agg).2.2 := by
  induction agg generalizing db with
  | nil => cases hmem
  | cons hd rest ih =>
    obtain ⟨k', q'⟩ := hd
    by_cases hk : k' = k
    · subst hk
      cases hfind' : findProduct db.products k'.1 k'.2 with
      | none =>
        rcases List.mem_cons.1 hmem with heq | hrest
        · simp only [subtract_loop, subtract_one_err hfind']
          exact List.mem_cons_self _ _
        · simp only [subtract_loop, subtract_one_err hfind']
          exact List.mem_cons.2 (Or.inr (ih hrest hfind))
      | some p' =>
        rw [hfind] at hfind'
        cases hfind'
    · rcases List.mem_cons.1 hmem with heq | hrest
      · exact absurd (congrArg Prod.fst heq).symm hk
      · cases hfind' : findProduct db.products k'.1 k'.2 with
        | none =>
          simp only [subtract_loop, subtract_one_err hfind']
          exact List.mem_cons_of_mem _ (ih hrest hfind)
        | some p' =>
          simp only [subtract_loop, subtract_one_ok hfind']
          apply ih hrest
          show findProduct (setProductQty db.products k'.1 k'.2 _) k.1 k.2 = none
          rw [findProduct_setQty_ne _ (fun hc => hk (Prod.ext hc.1 hc.2).symm)]
          exact hfind

theorem l2_delete_absent {cc : List ProductCardCache} {d a : String}
    (h : noCard cc d a) : l2_delete cc d a = cc := by
  rw [l2_delete]
  apply List.filter_eq_self.2
  intro c hc
  have hno := h c hc
  by_cases h1 : c.dept_id = d
  · have h2 : ¬ c.article = a := fun h2 => hno ⟨h1, h2⟩
    simp [h2]
  · simp [h1]

theorem subtract_loop_key_clears_card {agg : List ((String × String) × Rat)} {db : DbState}
    {k : String × String} {q : Rat} {p : Product}
    (hmem : (k, q) ∈ agg)
    (hfind : findProduct db.products k.1 k.2 = some p) :
    noCard (subtract_loop db agg).1.product_card_cache k.1 k.2 := by
  induction agg generalizing db p with
  | nil => cases hmem
  | cons hd rest ih =>
    obtain ⟨k', q'⟩ := hd
    by_cases hk : k' = k
    · subst hk
      simp only [subtract_loop, subtract_one_ok hfind]
      exact subtract_loop_noCard (noCard_l2_delete _ _ _)
    · rcases List.mem_cons.1 hmem with heq | hrest
      · exact absurd (congrArg Prod.fst heq).symm hk
      · cases hfind' : findProduct db.products k'.1 k'.2 with
        | none =>
          simp only [subtract_loop, subtract_one_err hfind']
          exact ih hrest hfind
        | some p' =>
          simp only [subtract_loop, subtract_one_ok hfind']
          apply ih hrest
          show findProduct (setProductQty db.products k'.1 k'.2 _) k.1 k.2 = some p
          rw [findProduct_setQty_ne _ (fun hc => hk (Prod.ext hc.1 hc.2).symm)]
          exact hfind

/-! ## Claim C8 -/

/-- C8: for every subtractBatch call and every aggregated key of it: if the
key is present in the ledger its quantity becomes `max 0 (before − requested)`
and a result line `(before, requested, after)` is appended to the report; if
the key is absent an `item not found` error line is recorded and processing
continues with the next key — every aggregated key gives exactly one line,
so `#results + #errors = #keys`. -/
theorem C8_subtract_batch (st : SysState) (items : List SubtractItem)
    (hwk : WellKeyed st.db.products) :
    (∀ (k : String × String) (q : Rat) (p : Product), ((k, q) ∈ aggregate_items items) →
        findProduct st.db.products k.1 k.2 = some p →
        findProduct (handle_subtract_payload st items).1.db.products k.1 k.2
          = some { p with qty := max 0 (p.qty - q) } ∧
        (⟨k.1, k.2, p.qty, q, max 0 (p.qty - q)⟩ : SubtractLine)
          ∈ (handle_subtract_payload st items).2.1) ∧
    (∀ (k : String × String) (q : Rat), ((k, q) ∈ aggregate_items items) →
        findProduct st.db.products k.1 k.2 = none →
        (⟨k.1, k.2⟩ : SubtractError) ∈ (handle_subtract_payload st items).2.2) ∧
    (handle_subtract_payload st items).2.1.length
      + (handle_subtract_payload st items).2.2.length
      = (aggregate_items items).length := by
  refine ⟨?_, ?_, ?_⟩
  · intro k q p hmem hfind
    have h := subtract_loop_key_ok (aggregate_items_nodup items) hmem hfind
    rw [clamp_eq_max] at h
    exact h
  · intro k q hmem hfind
    exact subtract_loop_key_err hmem hfind
  · exact subtract_loop_length st.db (aggregate_items items)

def subItemsW : List SubtractItem :=
  [{ article := "12345678", qty := 4, dept_id := "100" },
   { article := "99999999", qty := 2, dept_id := "100" }]

/-- Witness for C8: one present key (subtracted and clamped) and one absent
key (error line), both recorded; scenario B of the spec. -/
theorem C8_subtract_batch_witness :
    WellKeyed stOne.db.products ∧
    ((("100", "12345678"), (4 : Rat)) ∈ aggregate_items subItemsW) ∧
    findProduct stOne.db.products "100" "12345678" = some prodA ∧
    findProduct (handle_subtract_payload stOne subItemsW).1.db.products "100" "12345678"
      = some { prodA with qty := max 0 (prodA.qty - 4) } ∧
    (⟨"100", "12345678", prodA.qty, 4, max 0 (prodA.qty - 4)⟩ : SubtractLine)
      ∈ (handle_subtract_payload stOne subItemsW).2.1 ∧
    ((("100", "99999999"), (2 : Rat)) ∈ aggregate_items subItemsW) ∧
    findProduct stOne.db.products "100" "99999999" = none ∧
    (⟨"100", "99999999"⟩ : SubtractError) ∈ (handle_subtract_payload stOne subItemsW).2.2 ∧
    (handle_subtract_payload stOne subItemsW).2.1.length
      + (handle_subtract_payload stOne subItemsW).2.2.length
      = (aggregate_items subItemsW).length := by
  have h := C8_subtract_batch stOne subItemsW (by decide)
  have h1 := h.1 ("100", "12345678") 4 prodA (by decide) rfl
  have h2 := h.2.1 ("100", "99999999") 2 (by decide) rfl
  exact ⟨by decide, by decide, rfl, h1.1, h1.2, by decide, rfl, h2, h.2.2⟩

/-! ## Claim C9 -/

/-- C9 counterexample: a successful subtract of a key whose card is cached
in both tiers removes the L2 row but leaves the L1 entry in place — the
entry is NOT removed from both tiers, because the subtraction path uses its
own `_invalidate_card_cache`, which only deletes the L2 row. -/
theorem C9_counterexample :
    (handle_subtract_payload stCached [⟨"12345678", 4, "100"⟩]).2.1
      = [⟨"100", "12345678", 10, 4, 6⟩] ∧
    (handle_subtract_payload stCached [⟨"12345678", 4, "100"⟩]).1.db.product_card_cache
      = [] ∧
    (handle_subtract_payload stCached [⟨"12345678", 4, "100"⟩]).1.l1 = [l1EntryA] := by
  refine ⟨?_, ?_, rfl⟩ <;>
  · simp only [handle_subtract_payload, aggregate_items, List.foldl, agg_add, List.any,
      subtract_loop, subtract_one, findProduct, List.find?, setProductQty, mapWhere,
      List.map, l2_delete, List.filter, stCached, prodA, cardRowA, l1EntryA]
    norm_num

/-- C9 amended: for every key processed successfully by subtractBatch the
card-cache entry is removed from the durable L2 store, and the removal is
idempotent (deleting an already-absent key is a no-op); the process-local
L1 map, however, is left untouched by the subtraction path. -/
theorem C9_subtract_invalidates_l2_only (st : SysState) (items : List SubtractItem)
    (hwk : WellKeyed st.db.products) :
    (handle_subtract_payload st items).1.l1 = st.l1 ∧
    (∀ (k : String × String) (q : Rat) (p : Product), ((k, q) ∈ aggregate_items items) →
        findProduct st.db.products k.1 k.2 = some p →
        noCard (handle_subtract_payload st items).1.db.product_card_cache k.1 k.2) ∧
    (∀ (cc : List ProductCardCache) (d a : String),
        noCard cc d a → l2_delete cc d a = cc) := by
  refine ⟨rfl, ?_, ?_⟩
  · intro k q p hmem hfind
    exact subtract_loop_key_clears_card hmem hfind
  · intro cc d a h
    exact l2_delete_absent h

/-- Witness for the amended C9 at a concrete input. -/
theorem C9_subtract_invalidates_l2_only_witness :
    WellKeyed stCached.db.products ∧
    ((("100", "12345678"), (4 : Rat)) ∈ aggregate_items [⟨"12345678", 4, "100"⟩]) ∧
    findProduct stCached.db.products "100" "12345678" = some prodA ∧
    (handle_subtract_payload stCached [⟨"12345678", 4, "100"⟩]).1.l1 = stCached.l1 ∧
    noCard (handle_subtract_payload stCached
      [⟨"12345678", 4, "100"⟩]).1.db.product_card_cache "100" "12345678" ∧
    l2_delete [] "100" "12345678" = [] := by
  have h := C9_subtract_invalidates_l2_only stCached [⟨"12345678", 4, "100"⟩] (by decide)
  exact ⟨by decide, by decide, rfl, h.1,
    h.2.1 ("100", "12345678") 4 prodA (by decide) rfl,
    h.2.2 [] "100" "12345678" (by intro c hc _; cases hc)⟩

/-! ## Import normalizer (utils/import_normalizer.py)

A table is modelled after the header-synonym matching and renaming
(steps 2–3): a list of rows with one optional field per canonical column,
plus one flag per canonical column recording whether the column exists.
A missing column means the field is `none` in every row; a `none` in a
present column is a NaN cell. Values of the article column are modelled
after Python `str()` conversion; extra non-canonical columns are not
modelled (they influence nothing but the early all-NaN row drop, and any
row kept only by them is dropped later by the keep mask). -/

structure NRow where
  dept : Option String
  group : Option String
  article : Option String
  name : Option String
  months_no_move : Option Rat
  qty : Option Rat
  price : Option Rat
  sum : Option Rat
deriving DecidableEq, Repr

structure ImpTable where
  rows : List NRow
  has_dept_col : Bool
  has_group_col : Bool
  has_article_col : Bool
  has_name_col : Bool
  has_months_col : Bool
  has_qty_col : Bool
  has_price_col : Bool
  has_sum_col : Bool
deriving DecidableEq, Repr

inductive NormError
  /-- `NoArticlesError`: no article identifier survived normalization. -/
  | noArticles
  /-- The pandas `KeyError` raised by the step-8 keep mask when the table
  has neither an article nor a name column: `~(True & True)` is the
  integer `-2` and `df.loc[-2]` fails. -/
  | keyError
deriving DecidableEq, Repr

/-- The `pd.DataFrame(columns=CANON_ORDER)` result returned for an empty
input: zero rows, every canonical column present. -/
def emptyCanonTable : ImpTable :=
  ⟨[], true, true, true, true, true, true, true, true⟩

/-- Python `str.strip()`: drop whitespace from both ends (executable,
unlike `String.trim`, whose `Substring` auxiliaries do not reduce). -/
def pyStrip (s : String) : String :=
  String.mk (((s.toList.dropWhile Char.isWhitespace).reverse.dropWhile
    Char.isWhitespace).reverse)

/-- `_is_blank`: `None`/NaN, or a string that strips to empty. -/
def is_blank : Option String → Bool
  | none => true
  | some s => pyStrip s == ""

/-- `df.dropna(how="all")` row predicate: every present column is NaN. -/
def rowAllNaN (t : ImpTable) (r : NRow) : Bool :=
  (!t.has_dept_col || r.dept.isNone) && (!t.has_group_col || r.group.isNone) &&
  (!t.has_article_col || r.article.isNone) && (!t.has_name_col || r.name.isNone) &&
  (!t.has_months_col || r.months_no_move.isNone) && (!t.has_qty_col || r.qty.isNone) &&
  (!t.has_price_col || r.price.isNone) && (!t.has_sum_col || r.sum.isNone)

def isWordChar (c : Char) : Bool := c.isAlphanum || c == '_'

/-- `_extract_article_from_name`: `ARTICLE_RE = ^\s*(\d{8})\b` against the
start of the name (ASCII digits; the word boundary requires the ninth
character, if any, to be a non-word character). -/
def extract_article_from_name : Option String → Option String
  | none => none
  | some s =>
    let cs := s.toList.dropWhile (fun c => c.isWhitespace)
    let ds := cs.take 8
    if ds.length == 8 && ds.all (fun c => c.isDigit)
        && (match cs.drop 8 with
            | [] => true
            | c :: _ => !isWordChar c) then
      some (String.mk ds)
    else none

/-- Python `s.split(".")` (executable; `String.splitOn` does not reduce). -/
def pySplitDot (s : String) : List String :=
  (s.toList.splitOn '.').map (fun l => String.mk l)

/-- Fullmatch of the digits-then-optional-dot-zeros pattern used by
`_ensure_article_as_str` to detect float artifacts such as `00012345.0`. -/
def matchesIntDotZeros (s : String) : Bool :=
  match pySplitDot s with
  | [a] => decide (a.length > 0) && a.toList.all (fun c => c.isDigit)
  | [a, b] => decide (a.length > 0) && a.toList.all (fun c => c.isDigit)
      && decide (b.length > 0) && b.toList.all (fun c => c == '0')
  | _ => false

/-- `s.split(".")[0]` applied only when the float-artifact pattern matches. -/
def stripDotZeros (s : String) : String :=
  if matchesIntDotZeros s then (pySplitDot s).headD "" else s

/-- `_ensure_article_as_str` per cell: `str(v).strip()`, strip a trailing
float artifact, keep only exactly-8-digit strings, otherwise `None`. -/
def ensure_article_cell : Option String → Option String
  | none => none
  | some v =>
    let s := stripDotZeros (pyStrip v)
    if s.length == 8 && s.toList.all (fun c => c.isDigit) then some s else none

/-- First half of `_recompute_price_sum`: with quantity and price columns,
fill the missing sums (or create the sum column). -/
def step_fill_sum (t : ImpTable) : ImpTable :=
  if t.has_qty_col && t.has_price_col then
    if t.has_sum_col then
      { t with rows := t.rows.map fun r =>
          match r.sum, r.qty, r.price with
          | none, some q, some pr => { r with sum := some (q * pr) }
          | _, _, _ => r }
    else
      { t with has_sum_col := true, rows := t.rows.map fun r =>
          { r with sum := match r.qty, r.price with
              | some q, some pr => some (q * pr)
              | _, _ => none } }
  else t

/-- Second half of `_recompute_price_sum`: with quantity and sum columns
but no price column, derive the price where the quantity is nonzero. -/
def step_fill_price (t : ImpTable) : ImpTable :=
  if t.has_qty_col && t.has_sum_col && !t.has_price_col then
    { t with has_price_col := true, rows := t.rows.map fun r =>
        { r with price := match r.qty, r.sum with
            | some q, some s => if q ≠ 0 then some (s / q) else none
            | _, _ => none } }
  else t

/-- Steps 6–7: `coerce_numeric_columns` is the identity on the model (the
numeric fields already hold parsed numbers, with NaN as `none`), and
`_recompute_price_sum` fills the missing of `sum` / `price` when it can. -/
def recompute_price_sum (t : ImpTable) : ImpTable :=
  if !(t.has_qty_col || t.has_price_col || t.has_sum_col) then t
  else step_fill_price (step_fill_sum t)

/-- Step 8 keep mask for a table whose article column exists: drop rows
blank in both the name and the article column. -/
def keep_row (has_name : Bool) (r : NRow) : Bool :=
  !((!has_name || is_blank r.name) && is_blank r.article)

/-- Step 9: strip whitespace in the name and group columns. -/
def trim_text_cols (t : ImpTable) : ImpTable :=
  let rows1 :=
    if t.has_name_col then t.rows.map (fun r => { r with name := r.name.map pyStrip })
    else t.rows
  let rows2 :=
    if t.has_group_col then rows1.map (fun r => { r with group := r.group.map pyStrip })
    else rows1
  { t with rows := rows2 }

/-- Step 1: `df.dropna(how="all")`. -/
def step_dropna (raw : ImpTable) : ImpTable :=
  { raw with rows := raw.rows.filter (fun r => !rowAllNaN raw r) }

/-- Step 4: when there is no article column but there is a name column,
derive the article column from the first 8 digits of the name. -/
def step_article_from_name (t : ImpTable) : ImpTable :=
  if !t.has_article_col && t.has_name_col then
    { t with has_article_col := true,
             rows := t.rows.map fun r =>
               { r with article := extract_article_from_name r.name } }
  else t

/-- Step 5: `_ensure_article_as_str` over the article column, if present. -/
def step_ensure_article (t : ImpTable) : ImpTable :=
  if t.has_article_col then
    { t with rows := t.rows.map fun r =>
        { r with article := ensure_article_cell r.article } }
  else t

/-- Step 8: the keep mask, for a table whose article column exists (without
one the source raises instead, handled in `normalize_import_table`). -/
def step_keep_mask (t : ImpTable) : ImpTable :=
  if t.has_article_col then
    { t with rows := t.rows.filter (keep_row t.has_name_col) }
  else t

/-- Steps 1–9 of `normalize_import_table`: drop all-NaN rows, derive the
article column from the name when absent, canonicalize article cells,
recompute price/sum, apply the keep mask, trim text columns. -/
def pre_normalize (raw : ImpTable) : ImpTable :=
  trim_text_cols (step_keep_mask (recompute_price_sum
    (step_ensure_article (step_article_from_name (step_dropna raw)))))

/-- `normalize_import_table`: empty input returns the canonical empty
table without checking articles; a table with neither an article nor a
name column hits the step-8 `KeyError`; otherwise rows without an article
are dropped (step 11) and `NoArticlesError` is raised when none is left
(step 12). -/
def normalize_import_table (raw : ImpTable) : Except NormError ImpTable :=
  if raw.rows.isEmpty then .ok emptyCanonTable
  else if (raw.rows.filter (fun r => !rowAllNaN raw r)).isEmpty then .ok emptyCanonTable
  else if !raw.has_article_col && !raw.has_name_col then .error .keyError
  else if ((pre_normalize raw).rows.filter (fun r => r.article.isSome)).isEmpty then
    .error .noArticles
  else
    .ok { pre_normalize raw with
          rows := (pre_normalize raw).rows.filter (fun r => r.article.isSome) }

/-- `NormalizedImport.require_any_articles` as a check: `true` when it
passes, `false` when it would raise `NoArticlesError`. -/
def require_any_articles (t : ImpTable) : Bool :=
  !(t.rows.isEmpty || !t.has_article_col || t.rows.all (fun r => r.article.isNone))

/-! ## Import reconciliation planner (handlers/admin/import_handlers.py) -/

structure PlanItem where
  article : String
  dept_id : String
  name : Option String
  qty : Option Rat
  price : Option Rat
  months_no_move : Option Rat
deriving DecidableEq, Repr

/-- The persisted `ImportPlan` (the display-only `stats` and
`human_report` fields are omitted). -/
structure ImportPlan where
  token : String
  to_insert : List PlanItem
  to_update : List PlanItem
  involved_depts : List String
  to_deactivate : List (String × String)
  deactivate_allowed : Bool
deriving DecidableEq, Repr

/-- The module configuration read from the environment:
`IMPORT_MAX_DEACTIVATE_SHARE` and `IMPORT_DEACTIVATE_MISSING`. -/
structure ImportCfg where
  max_deactivate_share : Rat
  deactivate_missing : Bool
deriving DecidableEq, Repr

/-- `str(r.get("відділ", "unknown"))`: the default only applies when the
column is missing; a NaN cell stringifies to `"nan"`. -/
def rowDeptStr (has_dept : Bool) (r : NRow) : String :=
  if has_dept then (match r.dept with | some d => d | none => "nan")
  else "unknown"

/-- `str(row["артикул"])` (`"None"` can only arise pre-normalization). -/
def rowArticleStr (r : NRow) : String :=
  match r.article with | some a => a | none => "None"

/-- The `__key` column: `f"{dept}::{article}"`. -/
def rowKeyStr (has_dept : Bool) (r : NRow) : String :=
  rowDeptStr has_dept r ++ "::" ++ rowArticleStr r

def prodKeyStr (p : Product) : String := p.dept_id ++ "::" ++ p.article

/-- Departments present in the import file. The source sorts the
deduplicated set; the model keeps first-occurrence order, as only
membership is ever consumed. -/
def involved_depts_of (t : ImpTable) : List String :=
  if t.has_dept_col then (t.rows.filterMap (fun r => r.dept)).dedup else ["unknown"]

/-- Python dict insertion: replace the value at an existing key in place,
else append. -/
def dictInsert (m : List (String × Product)) (k : String) (p : Product) :
    List (String × Product) :=
  if m.any (fun kv => kv.1 == k) then
    m.map fun kv => if kv.1 == k then (kv.1, p) else kv
  else m ++ [(k, p)]

/-- `db_map = {key(p): p for p in db_items}`. -/
def db_map_of (rows : List Product) : List (String × Product) :=
  rows.foldl (fun m p => dictInsert m (prodKeyStr p) p) []

/-- `_row2item`: a missing column or a NaN cell gives `None`; such a field
is left untouched on update and defaulted on insert. -/
def row2item (t : ImpTable) (r : NRow) : PlanItem :=
  { article := rowArticleStr r
    dept_id := rowDeptStr t.has_dept_col r
    name := if t.has_name_col then r.name else none
    qty := if t.has_qty_col then r.qty else none
    price := if t.has_price_col then r.price else none
    months_no_move := if t.has_months_col then r.months_no_move else none }

/-- `_prepare_import_plan`. Returns `none` when the file has no department
column: the per-department aggregation then evaluates
`"unknown".astype(str)` and raises `AttributeError` before the plan is
built (the display-only per-department sums are otherwise not modelled). -/
def prepare_import_plan (cfg : ImportCfg) (t : ImpTable) (ledger : List Product)
    (token : String) : Option ImportPlan :=
  if !t.has_dept_col then none
  else
    let involved := involved_depts_of t
    let db_items := ledger.filter fun p => involved.contains p.dept_id
    let db_map := db_map_of db_items
    let to_update := (t.rows.filter fun r =>
        db_map.any (fun kv => kv.1 == rowKeyStr t.has_dept_col r)).map (row2item t)
    let to_insert := (t.rows.filter fun r =>
        !db_map.any (fun kv => kv.1 == rowKeyStr t.has_dept_col r)).map (row2item t)
    let imported_keys := t.rows.map (rowKeyStr t.has_dept_col)
    let to_deactivate :=
      if cfg.deactivate_missing then
        (db_map.filter fun kv => !imported_keys.contains kv.1).map
          fun kv => (kv.2.article, kv.2.dept_id)
      else []
    let total_db_involved : Nat := if db_map.length == 0 then 1 else db_map.length
    let share : Rat := (to_deactivate.length : Rat) / (total_db_involved : Rat)
    let deactivate_allowed := if share > cfg.max_deactivate_share then false else true
    some { token := token, to_insert := to_insert, to_update := to_update,
           involved_depts := involved, to_deactivate := to_deactivate,
           deactivate_allowed := deactivate_allowed }

/-! ### Applying a plan (`_cb_apply_import`) -/

/-- The keys of the `existing` snapshot taken at apply time:
`(article, dept_id)` of every current row of the involved departments. -/
def existing_keys (ledger : List Product) (involved : List String) :
    List (String × String) :=
  (ledger.filter fun p => involved.contains p.dept_id).map fun p => (p.article, p.dept_id)

/-- Apply the non-`None` fields of a plan item to a loaded object and force
`active = True`. -/
def applyFields (p : Product) (it : PlanItem) : Product :=
  { p with
    name := it.name.getD p.name
    qty := it.qty.getD p.qty
    price := it.price.getD p.price
    months_no_move := it.months_no_move.getD p.months_no_move
    active := true }

/-- A fresh `Product()` for an insert: unset columns take the column
defaults at flush (`""`/`0`), the non-`None` plan fields are applied,
`active = True`. The update-turned-insert branch builds the same row. -/
def mkNewProduct (it : PlanItem) : Product :=
  { dept_id := it.dept_id
    article := it.article
    name := it.name.getD ""
    qty := it.qty.getD 0
    price := it.price.getD 0
    months_no_move := it.months_no_move.getD 0
    active := true }

def updatePlanItem (rows : List Product) (it : PlanItem) : List Product :=
  mapWhere rows it.dept_id it.article (fun p => applyFields p it)

/-- The INSERT loop: a key that appeared since the dry run is updated
instead ("paranoia" branch). Returns `(rows, inserted, updated)`. -/
def insert_loop (ex : List (String × String)) :
    List Product → List PlanItem → List Product × Nat × Nat
  | rows, [] => (rows, 0, 0)
  | rows, it :: rest =>
    if ex.contains (it.article, it.dept_id) then
      let r := insert_loop ex (updatePlanItem rows it) rest
      (r.1, r.2.1, r.2.2 + 1)
    else
      let r := insert_loop ex (rows ++ [mkNewProduct it]) rest
      (r.1, r.2.1 + 1, r.2.2)

/-- The UPDATE loop: a key that disappeared since the dry run is turned
into an insert; the loop increments only the insert counter. -/
def update_loop (ex : List (String × String)) :
    List Product → List PlanItem → List Product × Nat
  | rows, [] => (rows, 0)
  | rows, it :: rest =>
    if ex.contains (it.article, it.dept_id) then
      update_loop ex (updatePlanItem rows it) rest
    else
      let r := update_loop ex (rows ++ [mkNewProduct it]) rest
      (r.1, r.2 + 1)

/-- The DEACTIVATE loop: each surviving candidate that is still active gets
`active = False`; a candidate no longer present is skipped (`p and
p.active` on the snapshot object). -/
def deact_loop (ex : List (String × String)) :
    List Product → List (String × String) → List Product × Nat
  | rows, [] => (rows, 0)
  | rows, (art, dept) :: rest =>
    if ex.contains (art, dept) then
      match findProduct rows dept art with
      | some p =>
        if p.active then
          let r := deact_loop ex
            (mapWhere rows dept art (fun q => { q with active := false })) rest
          (r.1, r.2 + 1)
        else deact_loop ex rows rest
      | none => deact_loop ex rows rest
    else deact_loop ex rows rest

/-- The session work of `_cb_apply_import`: snapshot the involved rows,
run INSERT, UPDATE and (when allowed and requested) DEACTIVATE. -/
def apply_plan_txn (cfg : ImportCfg) (plan : ImportPlan) (ledger : List Product) :
    List Product × Nat × Nat × Nat :=
  let ex := existing_keys ledger plan.involved_depts
  let r1 := insert_loop ex ledger plan.to_insert
  let r2 := update_loop ex r1.1 plan.to_update
  let r3 :=
    if cfg.deactivate_missing && plan.deactivate_allowed
        && !plan.to_deactivate.isEmpty then
      deact_loop ex r2.1 plan.to_deactivate
    else (r2.1, 0)
  (r3.1, r1.2.1 + r2.2, r1.2.2, r3.2)

/-- Commit of the products table: the database enforces
`uq_products_dept_article` and `ck_products_qty_nonneg`; a violation
raises and nothing is committed. -/
def commitProducts (rows : List Product) : Except Unit (List Product) :=
  if (rows.map prodKey).Nodup ∧ (∀ p ∈ rows, 0 ≤ p.qty) then .ok rows else .error ()

/-! ### The plan store and the confirm / cancel callbacks -/

/-- `_load_plan`: read `PLANS_DIR / f"{token}.json"`. -/
def load_plan (store : List (String × ImportPlan)) (token : String) : Option ImportPlan :=
  (store.find? (fun e => e.1 == token)).map (fun e => e.2)

/-- `_save_plan`: write (overwrite) the plan file for its token. -/
def save_plan (store : List (String × ImportPlan)) (plan : ImportPlan) :
    List (String × ImportPlan) :=
  if store.any (fun e => e.1 == plan.token) then
    store.map fun e => if e.1 == plan.token then (e.1, plan) else e
  else store ++ [(plan.token, plan)]

inductive ApplyOutcome
  | planNotFound
  | applied (ins upd deact : Nat)
  | applyFailed
deriving DecidableEq, Repr

/-- `_cb_apply_import`: load the plan by token ("plan not found or
expired" when the file is missing), run the session work, commit, report.
No branch of this handler deletes the plan file. -/
def cb_apply_import (cfg : ImportCfg) (store : List (String × ImportPlan))
    (ledger : List Product) (token : String) :
    ApplyOutcome × List (String × ImportPlan) × List Product :=
  match load_plan store token with
  | none => (.planNotFound, store, ledger)
  | some plan =>
    let r := apply_plan_txn cfg plan ledger
    match commitProducts r.1 with
    | .ok rows => (.applied r.2.1 r.2.2.1 r.2.2.2, store, rows)
    | .error _ => (.applyFailed, store, ledger)

/-- `_cb_cancel_import`: unlink the plan file if it exists. -/
def cb_cancel_import (store : List (String × ImportPlan)) (token : String) :
    List (String × ImportPlan) :=
  store.filter fun e => !(e.1 == token)

inductive ImportOutcome
  | noArticles
  | readError
  | crashed
  | noChanges
  | planned (token : String)
deriving DecidableEq, Repr

/-- `_handle_import_file` after the upload: normalize and require articles
(`NoArticlesError` answered as "import cancelled, nothing changed"), build
the dry-run plan, refuse no-change plans, persist the plan and show the
confirmation keyboard. `readError` is the generic `except Exception`
answer (it also catches the step-8 `KeyError`); `crashed` is the uncaught
`AttributeError` from a file with no department column. -/
def handle_import_file (cfg : ImportCfg) (raw : ImpTable) (ledger : List Product)
    (store : List (String × ImportPlan)) (token : String) :
    ImportOutcome × List (String × ImportPlan) :=
  match normalize_import_table raw with
  | .error .noArticles => (.noArticles, store)
  | .error .keyError => (.readError, store)
  | .ok t =>
    if !require_any_articles t then (.noArticles, store)
    else
      match prepare_import_plan cfg t ledger token with
      | none => (.crashed, store)
      | some plan =>
        if plan.to_insert.isEmpty && plan.to_update.isEmpty
            && !(cfg.deactivate_missing && !plan.to_deactivate.isEmpty) then
          (.noChanges, store)
        else (.planned token, save_plan store plan)

/-! ## Claim C5 -/

theorem cb_apply_store_unchanged (cfg : ImportCfg) (store : List (String × ImportPlan))
    (ledger : List Product) (token : String) :
    (cb_apply_import cfg store ledger token).2.1 = store := by
  cases hl : load_plan store token with
  | none => simp [cb_apply_import, hl]
  | some plan =>
    simp only [cb_apply_import, hl]
    cases commitProducts (apply_plan_txn cfg plan ledger).1 <;> rfl

/-- C5 divergence: `_cb_apply_import` has no branch that deletes the plan
file (only `_cb_cancel_import` unlinks it), so after any apply — including
a successful one — the store still holds the token, and a second apply
attempt on the same token loads the same plan and applies it again instead
of failing with "plan not found / expired". -/
theorem C5_plan_not_discarded (cfg : ImportCfg) (store : List (String × ImportPlan))
    (ledger : List Product) (token : String) :
    (cb_apply_import cfg store ledger token).2.1 = store ∧
    ((cb_apply_import cfg store ledger token).1 ≠ ApplyOutcome.planNotFound →
      (cb_apply_import cfg (cb_apply_import cfg store ledger token).2.1
          (cb_apply_import cfg store ledger token).2.2 token).1
        ≠ ApplyOutcome.planNotFound) := by
  refine ⟨cb_apply_store_unchanged cfg store ledger token, ?_⟩
  intro hfirst
  rw [cb_apply_store_unchanged cfg store ledger token]
  cases hl : load_plan store token with
  | none =>
    exfalso
    apply hfirst
    simp [cb_apply_import, hl]
  | some plan =>
    have : ∀ ledger2 : List Product,
        (cb_apply_import cfg store ledger2 token).1 ≠ ApplyOutcome.planNotFound := by
      intro ledger2
      simp only [cb_apply_import, hl]
      cases commitProducts (apply_plan_txn cfg plan ledger2).1 <;> simp
    exact this _

def emptyPlan : ImportPlan :=
  { token := "t1", to_insert := [], to_update := [], involved_depts := [],
    to_deactivate := [], deactivate_allowed := true }

def storeW : List (String × ImportPlan) := [("t1", emptyPlan)]

def cfgW : ImportCfg := { max_deactivate_share := 1/2, deactivate_missing := true }

/-- C5 at the failing input: a store holding one plan; the first apply
succeeds, the store is unchanged, and the second apply on the same token
does not fail with "plan not found" — it applies the plan again. -/
theorem C5_plan_not_discarded_witness :
    (cb_apply_import cfgW storeW [] "t1").1 = ApplyOutcome.applied 0 0 0 ∧
    (cb_apply_import cfgW storeW [] "t1").2.1 = storeW ∧
    (cb_apply_import cfgW (cb_apply_import cfgW storeW [] "t1").2.1
        (cb_apply_import cfgW storeW [] "t1").2.2 "t1").1
      ≠ ApplyOutcome.planNotFound := by
  have h := C5_plan_not_discarded cfgW storeW [] "t1"
  have h1 : (cb_apply_import cfgW storeW [] "t1").1 = ApplyOutcome.applied 0 0 0 := by
    simp [cb_apply_import, load_plan, storeW, List.find?, emptyPlan, apply_plan_txn,
      insert_loop, update_loop, deact_loop, existing_keys, commitProducts]
  exact ⟨h1, h.1, h.2 (by rw [h1]; intro hc; cases hc)⟩

/-! ## Claim C7 -/

/-- A nonempty import table that has neither an article nor a name column
(only a quantity column): zero resolvable article identifiers. -/
def rawNoArt : ImpTable :=
  { rows := [{ dept := none, group := none, article := none, name := none,
               months_no_move := none, qty := some 5, price := none, sum := none }],
    has_dept_col := false, has_group_col := false, has_article_col := false,
    has_name_col := false, has_months_col := false, has_qty_col := true,
    has_price_col := false, has_sum_col := false }

/-- C7 counterexample: this table has zero resolvable article identifiers,
yet normalization raises the pandas `KeyError` of the step-8 keep mask
(`~(True & True)` is `-2`, and `df.loc[-2]` fails), which the handler
reports as a generic read error — not the distinguished `NoArticlesError`.
(The ledger is still untouched.) -/
theorem C7_counterexample :
    normalize_import_table rawNoArt = .error .keyError ∧
    handle_import_file cfgW rawNoArt [] [] "t2" = (ImportOutcome.readError, []) ∧
    ImportOutcome.readError ≠ ImportOutcome.noArticles :=
  ⟨rfl, rfl, by simp⟩

/-- C7 amended: for every import table with zero resolvable article
identifiers the import is refused without reading or writing the ledger
and no plan is produced; the distinguished no-articles condition is raised
whenever the table has an article column or a name column (otherwise the
step-8 keep mask raises a generic error, reported as a read failure). -/
theorem C7_no_articles_refuses (cfg : ImportCfg) (raw : ImpTable)
    (ledger : List Product) (store : List (String × ImportPlan)) (token : String)
    (hzero : ∀ r ∈ (pre_normalize raw).rows, r.article = none) :
    ((handle_import_file cfg raw ledger store token).1 = ImportOutcome.noArticles ∨
     (handle_import_file cfg raw ledger store token).1 = ImportOutcome.readError) ∧
    ((raw.has_article_col || raw.has_name_col) = true →
      (handle_import_file cfg raw ledger store token).1 = ImportOutcome.noArticles) ∧
    (handle_import_file cfg raw ledger store token).2 = store ∧
    (∀ ledger2, handle_import_file cfg raw ledger2 store token
      = handle_import_file cfg raw ledger store token) := by
  have hnorm : (normalize_import_table raw = .error .keyError ∧
        raw.has_article_col = false ∧ raw.has_name_col = false)
      ∨ normalize_import_table raw = .ok emptyCanonTable
      ∨ normalize_import_table raw = .error .noArticles := by
    unfold normalize_import_table
    by_cases h1 : raw.rows.isEmpty
    · right; left; simp [h1]
    · by_cases h2 : (raw.rows.filter (fun r => !rowAllNaN raw r)).isEmpty
      · right; left; simp [h1, h2]
      · by_cases h3 : (!raw.has_article_col && !raw.has_name_col) = true
        · left
          have h3' := h3
          simp only [Bool.and_eq_true, Bool.not_eq_true'] at h3'
          exact ⟨by simp [h1, h2, h3], h3'.1, h3'.2⟩
        · right; right
          have hfilter : (pre_normalize raw).rows.filter (fun r => r.article.isSome)
              = [] := by
            apply List.filter_eq_nil_iff.2
            intro r hr
            simp [hzero r hr]
          simp [h1, h2, h3, hfilter]
  rcases hnorm with ⟨hn, ha, hb⟩ | hn | hn
  · refine ⟨Or.inr ?_, ?_, ?_, fun ledger2 => ?_⟩ <;>
      simp [handle_import_file, hn, ha, hb]
  · have hreq : require_any_articles emptyCanonTable = false := rfl
    refine ⟨Or.inl ?_, fun _ => ?_, ?_, fun ledger2 => ?_⟩ <;>
      simp [handle_import_file, hn, hreq]
  · refine ⟨Or.inl ?_, fun _ => ?_, ?_, fun ledger2 => ?_⟩ <;>
      simp [handle_import_file, hn]

/-- A table whose article column is present but holds no value that
canonicalizes to 8 digits. -/
def rawBadArt : ImpTable :=
  { rows := [{ dept := some "100", group := none, article := some "12AB5678",
               name := some "thing", months_no_move := none, qty := some 1,
               price := none, sum := none }],
    has_dept_col := true, has_group_col := false, has_article_col := true,
    has_name_col := true, has_months_col := false, has_qty_col := true,
    has_price_col := false, has_sum_col := false }

/-- Witness for the amended C7 at a concrete input: the no-articles refusal
with the plan store unchanged. -/
theorem C7_no_articles_refuses_witness :
    (∀ r ∈ (pre_normalize rawBadArt).rows, r.article = none) ∧
    (rawBadArt.has_article_col || rawBadArt.has_name_col) = true ∧
    (handle_import_file cfgW rawBadArt [] [] "t2").1 = ImportOutcome.noArticles ∧
    (handle_import_file cfgW rawBadArt [] [] "t2").2 = [] := by
  have hz : ∀ r ∈ (pre_normalize rawBadArt).rows, r.article = none := by decide
  have h := C7_no_articles_refuses cfgW rawBadArt [] [] "t2" hz
  exact ⟨hz, rfl, h.2.1 rfl, h.2.2.1⟩

/-! ## Claim C10 -/

theorem digit_not_whitespace {c : Char} (h : c.isDigit = true) :
    c.isWhitespace = false := by
  by_contra hcon
  rw [Bool.not_eq_false] at hcon
  simp only [Char.isWhitespace, Bool.or_eq_true, decide_eq_true_eq] at hcon
  simp only [Char.isDigit, Bool.and_eq_true, decide_eq_true_eq] at h
  rcases hcon with ((h1 | h1) | h1) | h1 <;> subst h1 <;> exact absurd h (by decide)

theorem dropWhile_eq_self_of_all {p : Char → Bool} :
    ∀ l : List Char, (∀ c ∈ l, p c = false) → l.dropWhile p = l
  | [], _ => rfl
  | c :: cs, h => by
    have hc : p c = false := h c (List.mem_cons_self c cs)
    rw [List.dropWhile_cons, if_neg (by simp [hc])]

theorem pyStrip_of_no_whitespace {s : String}
    (h : ∀ c ∈ s.toList, Char.isWhitespace c = false) : pyStrip s = s := by
  unfold pyStrip
  rw [dropWhile_eq_self_of_all _ h,
    dropWhile_eq_self_of_all _ (fun c hc => h c (List.mem_reverse.1 hc)),
    List.reverse_reverse]
  cases s
  rfl

theorem pyStrip_digits {s : String} (h : s.toList.all (fun c => c.isDigit) = true) :
    pyStrip s = s :=
  pyStrip_of_no_whitespace (fun c hc =>
    digit_not_whitespace (List.all_eq_true.1 h c hc))

/-- Everything `_ensure_article_as_str` lets through is a string of exactly
8 digits. -/
theorem ensure_article_cell_some {x : Option String} {s : String}
    (h : ensure_article_cell x = some s) :
    s.length = 8 ∧ s.toList.all (fun c => c.isDigit) = true := by
  cases x with
  | none => cases h
  | some v =>
    simp only [ensure_article_cell] at h
    split_ifs at h with hc
    · cases h
      simp only [Bool.and_eq_true, beq_iff_eq] at hc
      exact ⟨hc.1, hc.2⟩

/-- An 8-digit article string is not blank. -/
theorem is_blank_digits {s : String} (hl : s.length = 8)
    (hd : s.toList.all (fun c => c.isDigit) = true) :
    is_blank (some s) = false := by
  have hne : s ≠ "" := by
    intro hcon
    rw [hcon] at hl
    simp [String.length] at hl
  simp [is_blank, pyStrip_digits hd, hne]

theorem fill_sum_article_flag (t : ImpTable) :
    (step_fill_sum t).has_article_col = t.has_article_col := by
  unfold step_fill_sum
  split_ifs <;> rfl

theorem fill_price_article_flag (t : ImpTable) :
    (step_fill_price t).has_article_col = t.has_article_col := by
  unfold step_fill_price
  split_ifs <;> rfl

theorem recompute_article_flag (t : ImpTable) :
    (recompute_price_sum t).has_article_col = t.has_article_col := by
  unfold recompute_price_sum
  split_ifs
  · rfl
  · rw [fill_price_article_flag, fill_sum_article_flag]

theorem trim_article_flag (t : ImpTable) :
    (trim_text_cols t).has_article_col = t.has_article_col := rfl

theorem fill_sum_rows_articles (t : ImpTable) :
    (step_fill_sum t).rows.map (fun r => r.article)
      = t.rows.map (fun r => r.article) := by
  unfold step_fill_sum
  split_ifs <;>
    first
      | rfl
      | (simp only [List.map_map]
         refine List.map_congr_left ?_
         intro r _
         first
           | rfl
           | (rcases hs : r.sum <;> rcases hq : r.qty <;> rcases hp : r.price <;>
                simp [hs, hq, hp]))

theorem fill_price_rows_articles (t : ImpTable) :
    (step_fill_price t).rows.map (fun r => r.article)
      = t.rows.map (fun r => r.article) := by
  unfold step_fill_price
  split_ifs
  · simp only [List.map_map]
    exact List.map_congr_left (fun r _ => rfl)
  · rfl

theorem recompute_rows_articles (t : ImpTable) :
    (recompute_price_sum t).rows.map (fun r => r.article)
      = t.rows.map (fun r => r.article) := by
  unfold recompute_price_sum
  split_ifs
  · rfl
  · rw [fill_price_rows_articles, fill_sum_rows_articles]

theorem trim_rows_articles (t : ImpTable) :
    (trim_text_cols t).rows.map (fun r => r.article)
      = t.rows.map (fun r => r.article) := by
  unfold trim_text_cols
  split_ifs <;> simp [List.map_map]

/-- After steps 1–9 the article column is present iff the raw table had an
article or a name column. -/
theorem pre_normalize_article_flag (raw : ImpTable) :
    (pre_normalize raw).has_article_col
      = (raw.has_article_col || raw.has_name_col) := by
  unfold pre_normalize trim_text_cols step_keep_mask step_ensure_article
    step_article_from_name step_dropna
  cases ha : raw.has_article_col <;> cases hn : raw.has_name_col <;>
    simp [recompute_article_flag]

/-- Every article in the pre-normalized rows went through
`_ensure_article_as_str`, provided the article column exists. -/
theorem pre_normalize_article_mem {raw : ImpTable} {r : NRow}
    (hcol : (raw.has_article_col || raw.has_name_col) = true)
    (hr : r ∈ (pre_normalize raw).rows) :
    ∃ x, r.article = ensure_article_cell x := by
  have h2flag : (step_article_from_name (step_dropna raw)).has_article_col = true := by
    unfold step_article_from_name step_dropna
    cases ha : raw.has_article_col <;> cases hn : raw.has_name_col <;>
      simp_all
  -- transfer membership down to the ensure step via the article projections
  have h1 : r.article ∈ (step_keep_mask (recompute_price_sum
      (step_ensure_article (step_article_from_name (step_dropna raw))))).rows.map
        (fun r => r.article) := by
    have := List.mem_map_of_mem (fun r : NRow => r.article) hr
    rwa [pre_normalize, trim_rows_articles] at this
  obtain ⟨r5, hr5, hr5a⟩ := List.mem_map.1 h1
  have hr4 : r5 ∈ (recompute_price_sum
      (step_ensure_article (step_article_from_name (step_dropna raw)))).rows := by
    revert hr5
    unfold step_keep_mask
    split_ifs
    · exact fun h => (List.mem_filter.1 h).1
    · exact fun h => h
  have h3 : r5.article ∈ (step_ensure_article
      (step_article_from_name (step_dropna raw))).rows.map (fun r => r.article) := by
    have := List.mem_map_of_mem (fun r : NRow => r.article) hr4
    rwa [recompute_rows_articles] at this
  obtain ⟨r3, hr3, hr3a⟩ := List.mem_map.1 h3
  rw [step_ensure_article, if_pos h2flag] at hr3
  obtain ⟨r2, _, hr2⟩ := List.mem_map.1 hr3
  refine ⟨r2.article, ?_⟩
  rw [← hr5a, ← hr3a, ← hr2]

/-- C10: (i) whenever `normalize_import_table` returns, the article column
exists and every article value is a string of exactly 8 digits — a row
whose article does not canonicalize is assigned `None` and dropped;
(ii) the canonicalizer strips a trailing `.0` float artifact
(`"00012345.0"` canonicalizes to `"00012345"`, a 7-digit `"0012345.0"` and
a non-integer `"12345678.5"` do not canonicalize); and (iii) the dropping
is silent: one row whose article canonicalizes makes the whole
normalization succeed regardless of the other rows. -/
theorem C10_normalized_articles_are_8_digits :
    (∀ (raw t : ImpTable), normalize_import_table raw = .ok t →
      t.has_article_col = true ∧
      ∀ r ∈ t.rows, ∃ s, r.article = some s ∧ s.length = 8 ∧
        s.toList.all (fun c => c.isDigit) = true) ∧
    (ensure_article_cell (some "00012345.0") = some "00012345" ∧
     ensure_article_cell (some "0012345.0") = none ∧
     ensure_article_cell (some "12345678.5") = none ∧
     ensure_article_cell (some " 12345678 ") = some "12345678") ∧
    (∀ (raw : ImpTable) (r : NRow) (s : String),
      raw.has_article_col = true → r ∈ raw.rows →
      ensure_article_cell r.article = some s →
      ∃ t, normalize_import_table raw = .ok t) := by
  refine ⟨?_, ⟨by decide, by decide, by decide, by decide⟩, ?_⟩
  · intro raw t hok
    unfold normalize_import_table at hok
    split_ifs at hok with h1 h2 h3 h4
    · cases hok; exact ⟨rfl, by intro r hr; cases hr⟩
    · cases hok; exact ⟨rfl, by intro r hr; cases hr⟩
    · cases hok
      have hcol : (raw.has_article_col || raw.has_name_col) = true := by
        by_contra hcon
        simp only [Bool.or_eq_true, not_or, Bool.not_eq_true] at hcon
        exact h3 (by simp [hcon.1, hcon.2])
      constructor
      · show (pre_normalize raw).has_article_col = true
        rw [pre_normalize_article_flag]
        exact hcol
      · intro r hr
        have hr' : r ∈ (pre_normalize raw).rows.filter (fun r => r.article.isSome) := hr
        have hmem := List.mem_filter.1 hr'
        obtain ⟨s, hs⟩ := Option.isSome_iff_exists.1 hmem.2
        obtain ⟨x, hx⟩ := pre_normalize_article_mem hcol hmem.1
        have h8 := ensure_article_cell_some (x := x) (s := s) (by rw [← hx, hs])
        exact ⟨s, hs, h8.1, h8.2⟩
  · intro raw r s hcol hr hens
    have hv : ∃ v, r.article = some v := by
      cases hx : r.article with
      | none => rw [hx] at hens; cases hens
      | some v => exact ⟨v, rfl⟩
    obtain ⟨v, hv⟩ := hv
    have h8 := ensure_article_cell_some hens
    -- the row survives the all-NaN drop
    have hnan : rowAllNaN raw r = false := by
      unfold rowAllNaN
      simp [hcol, hv]
    have hr1 : r ∈ (step_dropna raw).rows :=
      List.mem_filter.2 ⟨hr, by simp [hnan]⟩
    -- step 4 is the identity here, step 5 maps the canonicalizer
    have hr3 : ({ r with article := some s } : NRow) ∈ (step_ensure_article
        (step_article_from_name (step_dropna raw))).rows := by
      rw [step_article_from_name, if_neg (by simp [step_dropna, hcol]),
        step_ensure_article, if_pos (by simp [step_dropna, hcol])]
      show _ ∈ List.map _ _
      refine List.mem_map.2 ⟨r, hr1, ?_⟩
      rw [← hens, hv]
    -- step 6/7 preserve the article values
    have hr4 : some s ∈ (recompute_price_sum (step_ensure_article
        (step_article_from_name (step_dropna raw)))).rows.map (fun r => r.article) := by
      rw [recompute_rows_articles]
      exact List.mem_map.2 ⟨_, hr3, rfl⟩
    obtain ⟨r4, hr4m, hr4a⟩ := List.mem_map.1 hr4
    -- step 8 keeps a row with a canonical article
    have hr5 : r4 ∈ (step_keep_mask (recompute_price_sum (step_ensure_article
        (step_article_from_name (step_dropna raw))))).rows := by
      unfold step_keep_mask
      split_ifs
      · refine List.mem_filter.2 ⟨hr4m, ?_⟩
        unfold keep_row
        rw [hr4a, is_blank_digits h8.1 h8.2]
        simp
      · exact hr4m
    -- step 9 preserves the article values
    have hr6 : some s ∈ (pre_normalize raw).rows.map (fun r => r.article) := by
      rw [pre_normalize, trim_rows_articles]
      exact List.mem_map.2 ⟨_, hr5, hr4a⟩
    obtain ⟨r6, hr6m, hr6a⟩ := List.mem_map.1 hr6
    -- hence the final filtered table is nonempty and normalize succeeds
    have hne : ((pre_normalize raw).rows.filter (fun r => r.article.isSome)) ≠ [] := by
      intro hnil
      have := List.filter_eq_nil_iff.1 hnil r6 hr6m
      rw [hr6a] at this
      simp at this
    refine ⟨{ pre_normalize raw with
              rows := (pre_normalize raw).rows.filter (fun r => r.article.isSome) }, ?_⟩
    unfold normalize_import_table
    rw [if_neg (by
        simp only [List.isEmpty_eq_true]
        exact List.ne_nil_of_mem hr),
      if_neg (by
        simp only [List.isEmpty_eq_true]
        exact List.ne_nil_of_mem
          (show r ∈ raw.rows.filter (fun x => !rowAllNaN raw x) from hr1)),
      if_neg (by simp [hcol]),
      if_neg (by
        simp only [List.isEmpty_eq_true]
        exact hne)]

/-- A table with one article that canonicalizes (after stripping the float
artifact) and one that does not. -/
def rawMixedArt : ImpTable :=
  { rows := [
      { dept := some "100", group := none, article := some "00012345.0",
        name := some "widget", months_no_move := none, qty := some 2,
        price := none, sum := none },
      { dept := some "100", group := none, article := some "12AB",
        name := some "bad row", months_no_move := none, qty := some 3,
        price := none, sum := none }],
    has_dept_col := true, has_group_col := false, has_article_col := true,
    has_name_col := true, has_months_col := false, has_qty_col := true,
    has_price_col := false, has_sum_col := false }

/-- Witness for C10 at a concrete input: the float artifact is stripped,
the normalization succeeds despite the bad row, and every surviving
article is an 8-digit string. -/
theorem C10_normalized_articles_are_8_digits_witness :
    ensure_article_cell (some "00012345.0") = some "00012345" ∧
    (∃ t, normalize_import_table rawMixedArt = .ok t ∧ t.has_article_col = true ∧
      ∀ r ∈ t.rows, ∃ s, r.article = some s ∧ s.length = 8 ∧
        s.toList.all (fun c => c.isDigit) = true) := by
  have h := C10_normalized_articles_are_8_digits
  have hens : ensure_article_cell (some "00012345.0") = some "00012345" := h.2.1.1
  obtain ⟨t, ht⟩ := h.2.2 rawMixedArt
    { dept := some "100", group := none, article := some "00012345.0",
      name := some "widget", months_no_move := none, qty := some 2,
      price := none, sum := none } "00012345" rfl (by simp [rawMixedArt]) hens
  obtain ⟨hflag, hall⟩ := h.1 rawMixedArt t ht
  exact ⟨hens, t, ht, hflag, hall⟩

/-! ## Claim C2 -/

theorem commitProducts_ok {rows out : List Product}
    (h : commitProducts rows = .ok out) :
    out = rows ∧ (rows.map prodKey).Nodup ∧ ∀ p ∈ rows, 0 ≤ p.qty := by
  unfold commitProducts at h
  split_ifs at h with hc
  cases h
  exact ⟨rfl, hc.1, hc.2⟩

theorem cb_apply_nonneg (cfg : ImportCfg) (store : List (String × ImportPlan))
    (ledger : List Product) (token : String) (h : allQtyNonneg ledger) :
    allQtyNonneg (cb_apply_import cfg store ledger token).2.2 := by
  cases hl : load_plan store token with
  | none => simpa [cb_apply_import, hl] using h
  | some plan =>
    simp only [cb_apply_import, hl]
    cases hc : commitProducts (apply_plan_txn cfg plan ledger).1 with
    | ok rows =>
      obtain ⟨heq, _, hq⟩ := commitProducts_ok hc
      subst heq
      exact hq
    | error e => simpa using h

/-- C2: for every ledger item the quantity stays nonnegative (assuming it
was nonnegative before) across all three mutation paths: after every
`_apply_add` (allocate), after every `handle_subtract_payload`
(subtractBatch, which clamps at zero), and after every `_cb_apply_import`
(import apply, whose commit is guarded by the `ck_products_qty_nonneg`
check constraint: a plan carrying a negative quantity fails to commit and
leaves the ledger unchanged). -/
theorem C2_qty_nonneg_invariant :
    (∀ (l2e : Bool) (st : SysState) (u d a : String) (q : Rat),
      allQtyNonneg st.db.products →
      allQtyNonneg (apply_add l2e st u d a q).1.db.products) ∧
    (∀ (st : SysState) (items : List SubtractItem),
      allQtyNonneg st.db.products →
      allQtyNonneg (handle_subtract_payload st items).1.db.products) ∧
    (∀ (cfg : ImportCfg) (store : List (String × ImportPlan))
        (ledger : List Product) (token : String),
      allQtyNonneg ledger →
      allQtyNonneg (cb_apply_import cfg store ledger token).2.2) := by
  refine ⟨?_, ?_, ?_⟩
  · intro l2e st u d a q h
    cases hf : findProduct st.db.products d a with
    | none => simpa [apply_add, apply_add_effects, hf] using h
    | some p =>
      intro r hr
      simp only [apply_add, apply_add_effects, hf] at hr
      obtain ⟨r0, hr0, hrs⟩ := mem_mapWhere hr
      rcases hrs with rfl | rfl
      · exact h _ hr0
      · show (0 : Rat) ≤ p.qty - min p.qty (max 0 q)
        have hle : min p.qty (max 0 q) ≤ p.qty := min_le_left _ _
        linarith
  · intro st items h
    exact subtract_loop_nonneg h
  · intro cfg store ledger token h
    exact cb_apply_nonneg cfg store ledger token h

/-- Witness for C2 at concrete inputs: one allocate, one subtract batch
and one import apply, all starting from a nonnegative ledger. -/
theorem C2_qty_nonneg_invariant_witness :
    allQtyNonneg stOne.db.products ∧
    allQtyNonneg (apply_add true stOne "7" "100" "12345678" 15).1.db.products ∧
    allQtyNonneg (handle_subtract_payload stOne subItemsW).1.db.products ∧
    allQtyNonneg (cb_apply_import cfgW storeW stOne.db.products "t1").2.2 := by
  have h0 : allQtyNonneg stOne.db.products := by
    intro p hp
    rcases List.mem_singleton.mp hp with rfl
    norm_num [prodA]
  have h := C2_qty_nonneg_invariant
  exact ⟨h0, h.1 true stOne "7" "100" "12345678" 15 h0, h.2.1 stOne subItemsW h0,
    h.2.2 cfgW storeW stOne.db.products "t1" h0⟩

/-! ## Claim C4 -/

theorem findProduct_append_single {rows : List Product} {p : Product} {d a : String}
    (h : ¬(p.dept_id = d ∧ p.article = a)) :
    findProduct (rows ++ [p]) d a = findProduct rows d a := by
  unfold findProduct
  rw [List.find?_append]
  cases hf : rows.find? (fun q => q.dept_id == d && q.article == a) with
  | none =>
    have hp : (p.dept_id == d && p.article == a) = false := by
      by_cases h1 : p.dept_id = d
      · have h2 : ¬ p.article = a := fun h2 => h ⟨h1, h2⟩
        simp [h2]
      · simp [h1]
    simp [List.find?, hp]
  | some q => rfl

theorem findProduct_updatePlanItem_ne {rows : List Product} {it : PlanItem} {d a : String}
    (hne : ¬(d = it.dept_id ∧ a = it.article)) :
    findProduct (updatePlanItem rows it) d a = findProduct rows d a :=
  findProduct_mapWhere_ne (fun p => applyFields p it) (fun q => ⟨rfl, rfl⟩) hne

theorem findProduct_setInactive_ne {rows : List Product} {dept art d a : String}
    (hne : ¬(d = dept ∧ a = art)) :
    findProduct (mapWhere rows dept art (fun q => { q with active := false })) d a
      = findProduct rows d a :=
  findProduct_mapWhere_ne (fun q => { q with active := false }) (fun q => ⟨rfl, rfl⟩) hne

theorem insert_loop_find_ne (ex : List (String × String)) {items : List PlanItem}
    {rows : List Product} {art dept : String}
    (hni : ∀ it ∈ items, ¬(it.article = art ∧ it.dept_id = dept)) :
    findProduct (insert_loop ex rows items).1 dept art = findProduct rows dept art := by
  induction items generalizing rows with
  | nil => rfl
  | cons it rest ih =>
    have hit := hni it (List.mem_cons_self _ _)
    have hrest := fun x hx => hni x (List.mem_cons_of_mem _ hx)
    unfold insert_loop
    split_ifs with hc
    · show findProduct (insert_loop ex (updatePlanItem rows it) rest).1 dept art = _
      rw [ih hrest,
        findProduct_updatePlanItem_ne (fun hc2 => hit ⟨hc2.2.symm, hc2.1.symm⟩)]
    · show findProduct (insert_loop ex (rows ++ [mkNewProduct it]) rest).1 dept art = _
      rw [ih hrest,
        findProduct_append_single (fun hc2 => hit ⟨hc2.2, hc2.1⟩)]

theorem update_loop_find_ne (ex : List (String × String)) {items : List PlanItem}
    {rows : List Product} {art dept : String}
    (hni : ∀ it ∈ items, ¬(it.article = art ∧ it.dept_id = dept)) :
    findProduct (update_loop ex rows items).1 dept art = findProduct rows dept art := by
  induction items generalizing rows with
  | nil => rfl
  | cons it rest ih =>
    have hit := hni it (List.mem_cons_self _ _)
    have hrest := fun x hx => hni x (List.mem_cons_of_mem _ hx)
    unfold update_loop
    split_ifs with hc
    · show findProduct (update_loop ex (updatePlanItem rows it) rest).1 dept art = _
      rw [ih hrest,
        findProduct_updatePlanItem_ne (fun hc2 => hit ⟨hc2.2.symm, hc2.1.symm⟩)]
    · show findProduct (update_loop ex (rows ++ [mkNewProduct it]) rest).1 dept art = _
      rw [ih hrest,
        findProduct_append_single (fun hc2 => hit ⟨hc2.2, hc2.1⟩)]

theorem deact_loop_inactive_stable (ex : List (String × String))
    {cands : List (String × String)} {rows : List Product} {art dept : String}
    {p : Product} (hfind : findProduct rows dept art = some p)
    (hact : p.active = false) :
    findProduct (deact_loop ex rows cands).1 dept art = some p := by
  induction cands generalizing rows with
  | nil => exact hfind
  | cons hd rest ih =>
    obtain ⟨a0, d0⟩ := hd
    by_cases hex0 : ex.contains (a0, d0) = true
    · cases hf0 : findProduct rows d0 a0 with
      | none =>
        simp only [deact_loop, hex0, hf0, if_true]
        exact ih hfind
      | some q =>
        by_cases hq : q.active = true
        · simp only [deact_loop, hex0, hf0, hq, if_true]
          apply ih
          by_cases hsame : dept = d0 ∧ art = a0
          · exfalso
            rw [hsame.1, hsame.2] at hfind
            rw [hfind] at hf0
            cases hf0
            rw [hact] at hq
            cases hq
          · rw [findProduct_setInactive_ne hsame]
            exact hfind
        · have hq' : q.active = false := by simpa using hq
          simp only [deact_loop, hex0, hf0, hq', if_true, Bool.false_eq_true, if_false]
          exact ih hfind
    · have hex0' : ex.contains (a0, d0) = false := by simpa using hex0
      simp only [deact_loop, hex0', Bool.false_eq_true, if_false]
      exact ih hfind

theorem deact_loop_deactivates (ex : List (String × String))
    {cands : List (String × String)} {rows : List Product} {art dept : String}
    {p : Product}
    (hmem : (art, dept) ∈ cands) (hex : ex.contains (art, dept) = true)
    (hfind : findProduct rows dept art = some p) :
    ∃ p', findProduct (deact_loop ex rows cands).1 dept art = some p'
        ∧ p'.active = false := by
  induction cands generalizing rows p with
  | nil => cases hmem
  | cons hd rest ih =>
    obtain ⟨a0, d0⟩ := hd
    by_cases hpair : (a0, d0) = (art, dept)
    · have ha : a0 = art := congrArg Prod.fst hpair
      have hd2 : d0 = dept := congrArg Prod.snd hpair
      subst ha
      subst hd2
      by_cases hq : p.active = true
      · simp only [deact_loop, hex, hfind, hq, if_true]
        refine ⟨{ p with active := false }, ?_, rfl⟩
        apply deact_loop_inactive_stable ex ?_ rfl
        exact findProduct_mapWhere_same _ (fun q => ⟨rfl, rfl⟩) hfind
      · have hq' : p.active = false := by simpa using hq
        simp only [deact_loop, hex, hfind, hq', if_true, Bool.false_eq_true, if_false]
        exact ⟨p, deact_loop_inactive_stable ex hfind hq', hq'⟩
    · have hmem' : (art, dept) ∈ rest := by
        rcases List.mem_cons.1 hmem with heq | h
        · exact absurd heq.symm hpair
        · exact h
      have hne : ¬(dept = d0 ∧ art = a0) := by
        intro hc
        exact hpair (by rw [hc.1, hc.2])
      by_cases hex0 : ex.contains (a0, d0) = true
      · cases hf0 : findProduct rows d0 a0 with
        | none =>
          simp only [deact_loop, hex0, hf0, if_true]
          exact ih hmem' hfind
        | some q =>
          by_cases hq : q.active = true
          · simp only [deact_loop, hex0, hf0, hq, if_true]
            apply ih hmem'
            rw [findProduct_setInactive_ne hne]
            exact hfind
          · have hq' : q.active = false := by simpa using hq
            simp only [deact_loop, hex0, hf0, hq', if_true, Bool.false_eq_true, if_false]
            exact ih hmem' hfind
      · have hex0' : ex.contains (a0, d0) = false := by simpa using hex0
        simp only [deact_loop, hex0', Bool.false_eq_true, if_false]
        exact ih hmem' hfind

/-- Under the unique-key constraint (no two rows of the involved
departments share a `dept::article` string), the `db_map` dict is just the
keyed listing of the rows. -/
theorem db_map_of_nodup {rows : List Product} (h : (rows.map prodKeyStr).Nodup) :
    db_map_of rows = rows.map (fun p => (prodKeyStr p, p)) := by
  suffices H : ∀ acc : List (String × Product),
      (∀ p ∈ rows, acc.any (fun kv => kv.1 == prodKeyStr p) = false) →
      (rows.map prodKeyStr).Nodup →
      rows.foldl (fun m p => dictInsert m (prodKeyStr p) p) acc
        = acc ++ rows.map (fun p => (prodKeyStr p, p)) by
    simpa using H [] (fun p _ => rfl) h
  intro acc
  clear h
  induction rows generalizing acc with
  | nil => intro _ _; simp
  | cons p rest ih =>
    intro hdisj hnd
    have hnd2 : prodKeyStr p ∉ rest.map prodKeyStr ∧ (rest.map prodKeyStr).Nodup := by
      rw [List.map_cons, List.nodup_cons] at hnd
      exact hnd
    rw [List.foldl_cons,
      show dictInsert acc (prodKeyStr p) p = acc ++ [(prodKeyStr p, p)] from by
        unfold dictInsert
        rw [if_neg (by simp [hdisj p (List.mem_cons_self _ _)])],
      ih _ ?_ hnd2.2]
    · simp
    · intro q hq
      rw [List.any_append]
      have h1 : acc.any (fun kv => kv.1 == prodKeyStr q) = false :=
        hdisj q (List.mem_cons_of_mem _ hq)
      have h2 : (prodKeyStr p == prodKeyStr q) = false := by
        rw [beq_eq_false_iff_ne]
        intro hcon
        exact hnd2.1 (hcon ▸ List.mem_map_of_mem prodKeyStr hq)
      simp [h1, List.any, h2]

/-- `len(db_map) or 1` is `max 1 len`. -/
theorem or_one_eq_max (n : Nat) : (if (n == 0) = true then 1 else n) = max 1 n := by
  cases n with
  | zero => simp
  | succ m =>
    rw [if_neg (by simp)]
    exact (Nat.max_eq_right (Nat.succ_le_succ (Nat.zero_le m))).symm

/-- Unpacking `_prepare_import_plan` when it returns a plan. -/
theorem prepare_components {cfg : ImportCfg} {t : ImpTable} {ledger0 : List Product}
    {token : String} {plan : ImportPlan}
    (hplan : prepare_import_plan cfg t ledger0 token = some plan) :
    t.has_dept_col = true ∧
    plan.involved_depts = involved_depts_of t ∧
    plan.to_deactivate =
      (if cfg.deactivate_missing then
        ((db_map_of (ledger0.filter fun p =>
            (involved_depts_of t).contains p.dept_id)).filter
          (fun kv => !(t.rows.map (rowKeyStr t.has_dept_col)).contains kv.1)).map
          (fun kv => (kv.2.article, kv.2.dept_id))
      else []) ∧
    plan.deactivate_allowed =
      (if ((plan.to_deactivate.length : Rat) /
            ((if ((db_map_of (ledger0.filter fun p =>
                (involved_depts_of t).contains p.dept_id)).length == 0) = true then 1
              else (db_map_of (ledger0.filter fun p =>
                (involved_depts_of t).contains p.dept_id)).length : Nat) : Rat))
          > cfg.max_deactivate_share then false else true) ∧
    (∀ it ∈ plan.to_insert, ∃ r ∈ t.rows, it = row2item t r) ∧
    (∀ it ∈ plan.to_update, ∃ r ∈ t.rows, it = row2item t r) := by
  unfold prepare_import_plan at hplan
  by_cases hd : (!t.has_dept_col) = true
  · rw [if_pos hd] at hplan
    cases hplan
  · rw [if_neg hd] at hplan
    cases hplan
    refine ⟨by simpa using hd, rfl, rfl, rfl, ?_, ?_⟩
    · intro it hit
      obtain ⟨r, hr, hre⟩ := List.mem_map.1 hit
      exact ⟨r, (List.mem_filter.1 hr).1, hre.symm⟩
    · intro it hit
      obtain ⟨r, hr, hre⟩ := List.mem_map.1 hit
      exact ⟨r, (List.mem_filter.1 hr).1, hre.symm⟩

/-- C4: with `share = |toDeactivate| / max(1, |ledger rows of the involved
departments|)` (as computed at dry-run time), the plan's
`deactivate_allowed` flag is false exactly when `share` exceeds the
configured maximum; and after a committed apply of the plan, if the flag
is false every deactivation candidate's `active` flag is unchanged, while
if the flag is true every surviving candidate's `active` flag is false. -/
theorem C4_deactivation_threshold (cfg : ImportCfg) (t : ImpTable)
    (ledger0 : List Product) (token : String) (plan : ImportPlan)
    (hkeys0 : ((ledger0.filter fun p =>
        (involved_depts_of t).contains p.dept_id).map prodKeyStr).Nodup)
    (hplan : prepare_import_plan cfg t ledger0 token = some plan) :
    (((plan.to_deactivate.length : Rat) /
        ((max 1 (ledger0.filter fun p =>
            (involved_depts_of t).contains p.dept_id).length : Nat) : Rat))
        > cfg.max_deactivate_share
      ↔ plan.deactivate_allowed = false) ∧
    (∀ ledger2 rows' : List Product,
      commitProducts (apply_plan_txn cfg plan ledger2).1 = .ok rows' →
      (plan.deactivate_allowed = false →
        ∀ k ∈ plan.to_deactivate,
          (findProduct rows' k.2 k.1).map (fun p => p.active)
            = (findProduct ledger2 k.2 k.1).map (fun p => p.active)) ∧
      (plan.deactivate_allowed = true →
        ∀ k ∈ plan.to_deactivate, ∀ p2, findProduct ledger2 k.2 k.1 = some p2 →
          (findProduct rows' k.2 k.1).map (fun p => p.active) = some false)) := by
  obtain ⟨hdept, hinv, hdeact, hallow, hins, hupd⟩ := prepare_components hplan
  have hdb := db_map_of_nodup hkeys0
  -- facts about each deactivation candidate
  have hcand : ∀ k ∈ plan.to_deactivate,
      cfg.deactivate_missing = true ∧
      ∃ p0, p0 ∈ (ledger0.filter fun p =>
          (involved_depts_of t).contains p.dept_id) ∧
        k = (p0.article, p0.dept_id) ∧
        prodKeyStr p0 ∉ t.rows.map (rowKeyStr t.has_dept_col) := by
    intro k hk
    rw [hdeact] at hk
    by_cases hdm : cfg.deactivate_missing = true
    · rw [if_pos hdm] at hk
      obtain ⟨kv, hkv, hkf⟩ := List.mem_map.1 hk
      have hkv2 := List.mem_filter.1 hkv
      rw [hdb] at hkv2
      obtain ⟨p0, hp0, hkveq⟩ := List.mem_map.1 hkv2.1
      refine ⟨hdm, p0, hp0, ?_, ?_⟩
      · rw [← hkf, ← hkveq]
      · have := hkv2.2
        rw [← hkveq] at this
        simpa using this
    · rw [if_neg hdm] at hk
      cases hk
  -- no insert / update item carries a candidate key
  have hdisj : ∀ k ∈ plan.to_deactivate,
      ∀ it : PlanItem, (∃ r ∈ t.rows, it = row2item t r) →
      ¬(it.article = k.1 ∧ it.dept_id = k.2) := by
    intro k hk it hit hc
    obtain ⟨_, p0, hp0, hkeq, hnotimp⟩ := hcand k hk
    obtain ⟨r, hr, hreq⟩ := hit
    apply hnotimp
    have h1 : rowArticleStr r = p0.article := by
      have := hc.1
      rw [hreq] at this
      simpa [row2item, hkeq] using this
    have h2 : rowDeptStr t.has_dept_col r = p0.dept_id := by
      have := hc.2
      rw [hreq] at this
      simpa [row2item, hkeq] using this
    have hkey : rowKeyStr t.has_dept_col r = prodKeyStr p0 := by
      rw [rowKeyStr, h1, h2, prodKeyStr]
    exact hkey ▸ List.mem_map_of_mem _ hr
  constructor
  · rw [hallow, or_one_eq_max, hdb, List.length_map]
    by_cases hgt : ((plan.to_deactivate.length : Rat) /
        ((max 1 (ledger0.filter fun p =>
            (involved_depts_of t).contains p.dept_id).length : Nat) : Rat))
        > cfg.max_deactivate_share
    · simp [hgt]
    · simp [hgt]
  · intro ledger2 rows' hcommit
    obtain ⟨hre, _, _⟩ := commitProducts_ok hcommit
    subst hre
    constructor
    · intro hfalse k hk
      have hskip : (cfg.deactivate_missing && plan.deactivate_allowed
          && !plan.to_deactivate.isEmpty) = false := by
        simp [hfalse]
      simp only [apply_plan_txn, hskip, Bool.false_eq_true, if_false]
      rw [update_loop_find_ne _
          (fun it hit => hdisj k hk it (hupd it hit)),
        insert_loop_find_ne _
          (fun it hit => hdisj k hk it (hins it hit))]
    · intro htrue k hk p2 hfind2
      obtain ⟨hdm, p0, hp0, hkeq, _⟩ := hcand k hk
      have hne : plan.to_deactivate.isEmpty = false := by
        have := List.ne_nil_of_mem hk
        simpa using this
      have hcond : (cfg.deactivate_missing && plan.deactivate_allowed
          && !plan.to_deactivate.isEmpty) = true := by
        simp [hdm, htrue, hne]
      simp only [apply_plan_txn, hcond, if_true]
      have hpres : findProduct
          (update_loop (existing_keys ledger2 plan.involved_depts)
            (insert_loop (existing_keys ledger2 plan.involved_depts) ledger2
              plan.to_insert).1 plan.to_update).1 k.2 k.1 = some p2 := by
        rw [update_loop_find_ne _
            (fun it hit => hdisj k hk it (hupd it hit)),
          insert_loop_find_ne _
            (fun it hit => hdisj k hk it (hins it hit))]
        exact hfind2
      have hp2m := findProduct_mem hfind2
      have hdept2 : k.2 ∈ plan.involved_depts := by
        rw [hinv, hkeq]
        have := (List.mem_filter.1 hp0).2
        simpa using this
      have hexk : (existing_keys ledger2 plan.involved_depts).contains
          (k.1, k.2) = true := by
        have hmem : (k.1, k.2) ∈ existing_keys ledger2 plan.involved_depts := by
          unfold existing_keys
          have hp2f : p2 ∈ ledger2.filter
              (fun p => plan.involved_depts.contains p.dept_id) := by
            refine List.mem_filter.2 ⟨hp2m.1, ?_⟩
            rw [hp2m.2.1]
            simpa using hdept2
          have : (p2.article, p2.dept_id)
              ∈ (ledger2.filter fun p =>
                plan.involved_depts.contains p.dept_id).map
                (fun p => (p.article, p.dept_id)) :=
            List.mem_map_of_mem _ hp2f
          rwa [hp2m.2.2, hp2m.2.1] at this
        simpa using hmem
      obtain ⟨p', hp', hp'a⟩ := @deact_loop_deactivates
        (existing_keys ledger2 plan.involved_depts)
        plan.to_deactivate _ k.1 k.2 _
        (by simpa using hk) hexk hpres
      rw [hp']
      simp [hp'a]

def ledgerW : List Product :=
  [{ dept_id := "100", article := "00000001", name := "a", qty := 5, price := 1,
     months_no_move := 0, active := true },
   { dept_id := "100", article := "00000002", name := "b", qty := 3, price := 1,
     months_no_move := 0, active := true }]

/-- An import file for department 100 listing one of the two ledger
articles: one candidate out of two rows, share 1/2. -/
def tAllowedW : ImpTable :=
  { rows := [{ dept := some "100", group := none, article := some "00000001",
               name := some "x", months_no_move := none, qty := some 7,
               price := none, sum := none }],
    has_dept_col := true, has_group_col := false, has_article_col := true,
    has_name_col := true, has_months_col := false, has_qty_col := true,
    has_price_col := false, has_sum_col := false }

/-- An import file for department 100 listing only a new article: both
ledger rows become candidates, share 1. -/
def tBlockedW : ImpTable :=
  { rows := [{ dept := some "100", group := none, article := some "00000009",
               name := some "y", months_no_move := none, qty := some 1,
               price := none, sum := none }],
    has_dept_col := true, has_group_col := false, has_article_col := true,
    has_name_col := true, has_months_col := false, has_qty_col := true,
    has_price_col := false, has_sum_col := false }

def planAllowedW : ImportPlan :=
  { token := "tk",
    to_insert := [],
    to_update := [{ article := "00000001", dept_id := "100", name := some "x",
                    qty := some 7, price := none, months_no_move := none }],
    involved_depts := ["100"],
    to_deactivate := [("00000002", "100")],
    deactivate_allowed := true }

def planBlockedW : ImportPlan :=
  { token := "tk",
    to_insert := [{ article := "00000009", dept_id := "100", name := some "y",
                    qty := some 1, price := none, months_no_move := none }],
    to_update := [],
    involved_depts := ["100"],
    to_deactivate := [("00000001", "100"), ("00000002", "100")],
    deactivate_allowed := false }

theorem prepare_allowedW :
    prepare_import_plan cfgW tAllowedW ledgerW "tk" = some planAllowedW := by
  unfold prepare_import_plan
  rw [if_neg (by decide)]
  simp only [tAllowedW, ledgerW, cfgW, planAllowedW, involved_depts_of, db_map_of,
    dictInsert, prodKeyStr, rowKeyStr, rowDeptStr, rowArticleStr, row2item,
    List.filterMap, List.dedup, List.filter, List.map, List.foldl, List.any,
    List.contains, List.elem, List.length]
  norm_num

theorem prepare_blockedW :
    prepare_import_plan cfgW tBlockedW ledgerW "tk" = some planBlockedW := by
  unfold prepare_import_plan
  rw [if_neg (by decide)]
  simp only [tBlockedW, ledgerW, cfgW, planBlockedW, involved_depts_of, db_map_of,
    dictInsert, prodKeyStr, rowKeyStr, rowDeptStr, rowArticleStr, row2item,
    List.filterMap, List.dedup, List.filter, List.map, List.foldl, List.any,
    List.contains, List.elem, List.length]
  norm_num

/-- The rows after applying `planAllowedW`: the listed article is updated
and the missing one is deactivated. -/
def txnAllowedW : List Product :=
  [{ dept_id := "100", article := "00000001", name := "x", qty := 7, price := 1,
     months_no_move := 0, active := true },
   { dept_id := "100", article := "00000002", name := "b", qty := 3, price := 1,
     months_no_move := 0, active := false }]

/-- The rows after applying `planBlockedW`: the new article is inserted and
both deactivation candidates survive untouched. -/
def txnBlockedW : List Product :=
  ledgerW ++ [{ dept_id := "100", article := "00000009", name := "y", qty := 1,
                price := 0, months_no_move := 0, active := true }]

theorem C4_deactivation_threshold_witness :
    planAllowedW.deactivate_allowed = true ∧
    (findProduct (apply_plan_txn cfgW planAllowedW ledgerW).1 "100" "00000002").map
        (fun p => p.active) = some false ∧
    planBlockedW.deactivate_allowed = false ∧
    (findProduct (apply_plan_txn cfgW planBlockedW ledgerW).1 "100" "00000001").map
        (fun p => p.active)
      = (findProduct ledgerW "100" "00000001").map (fun p => p.active) := by
  have hA := C4_deactivation_threshold cfgW tAllowedW ledgerW "tk" planAllowedW
    (by decide) prepare_allowedW
  have hB := C4_deactivation_threshold cfgW tBlockedW ledgerW "tk" planBlockedW
    (by decide) prepare_blockedW
  have htA : (apply_plan_txn cfgW planAllowedW ledgerW).1 = txnAllowedW := rfl
  have htB : (apply_plan_txn cfgW planBlockedW ledgerW).1 = txnBlockedW := rfl
  have hcondA : (txnAllowedW.map prodKey).Nodup ∧ ∀ p ∈ txnAllowedW, 0 ≤ p.qty := by
    refine ⟨by decide, ?_⟩
    intro p hp
    simp only [txnAllowedW, List.mem_cons, List.not_mem_nil, or_false] at hp
    rcases hp with rfl | rfl <;> norm_num
  have hcondB : (txnBlockedW.map prodKey).Nodup ∧ ∀ p ∈ txnBlockedW, 0 ≤ p.qty := by
    refine ⟨by decide, ?_⟩
    intro p hp
    simp only [txnBlockedW, ledgerW, List.cons_append, List.nil_append,
      List.mem_cons, List.not_mem_nil, or_false] at hp
    rcases hp with rfl | rfl | rfl <;> norm_num
  have hcA : commitProducts (apply_plan_txn cfgW planAllowedW ledgerW).1
      = .ok txnAllowedW := by
    rw [htA]; unfold commitProducts; rw [if_pos hcondA]
  have hcB : commitProducts (apply_plan_txn cfgW planBlockedW ledgerW).1
      = .ok txnBlockedW := by
    rw [htB]; unfold commitProducts; rw [if_pos hcondB]
  refine ⟨rfl, ?_, rfl, ?_⟩
  · rw [htA]
    exact (hA.2 ledgerW txnAllowedW hcA).2 rfl ("00000002", "100") (by decide)
      (ledgerW.get ⟨1, by decide⟩) rfl
  · rw [htB]
    exact (hB.2 ledgerW txnBlockedW hcB).1 rfl ("00000001", "100") (by decide)

end EpicService
